import Mathlib

/-!
A verification development for the `detest` step-execution engine
(`internal/runner/exec.go` and its data model in `internal/provider` and
`internal/report`).  The Go code is shallowly embedded: pure string
manipulation is translated function-by-function onto `List Char` /
`String`, the process/file-system/clock effects are abstracted as oracle
parameters, and the orchestration loops (`runBatch` / `runStreaming`,
dispatched by `Runner.Run`) are translated as explicit state-passing
recursions.  Durations are nanosecond counts (`Nat`), as in Go's
`time.Duration` for the non-negative values produced by a monotonic clock.
-/

namespace Detest

/-! ### Character/string helpers mirroring the Go standard library -/

/-- A single-quote character, used inside message literals. -/
def sq : Char := Char.ofNat 39

/-- Model of `unicode.IsSpace` restricted to the whitespace Go's
`strings.TrimSpace` and `\s` actually meet in this code base. -/
def isSpaceChar (c : Char) : Bool :=
  c = ' ' ∨ c = '\t' ∨ c = '\n' ∨ c = Char.ofNat 13 ∨ c = Char.ofNat 12 ∨ c = Char.ofNat 11

/-- Model of `strings.TrimSpace`. -/
def goTrimSpace (s : String) : String :=
  String.mk (((s.toList.dropWhile isSpaceChar).reverse.dropWhile isSpaceChar).reverse)

/-- Model of `strings.ToLower` (ASCII case folding, which is all the
runner's patterns and signatures use). -/
def lowerStr (s : String) : String :=
  String.mk (s.toList.map Char.toLower)

/-- Model of `strings.Index(kv, "=")` followed by the two slices
`kv[:idx]` / `kv[idx+1:]`: splits at the first `'='`, `none` when the
entry contains no `'='`. -/
def splitEq (kv : String) : Option (String × String) :=
  match kv.toList.findIdx? (· = '=') with
  | none => none
  | some i => some (String.mk (kv.toList.take i), String.mk (kv.toList.drop (i + 1)))

/-- One character of Go's `%q` rendering (double-quoted, control
characters escaped).  The exact escape table is irrelevant to the claims;
what matters is that no raw newline survives. -/
def goQuoteChar (c : Char) : List Char :=
  if c = '"' then ['\\', '"']
  else if c = '\\' then ['\\', '\\']
  else if c = '\n' then ['\\', 'n']
  else if c = '\t' then ['\\', 't']
  else [c]

/-- Model of `fmt.Sprintf("%q", s)`. -/
def goQuote (s : String) : String :=
  String.mk ('"' :: s.toList.flatMap goQuoteChar ++ ['"'])

/-- Model of `filepath.Join(a, b)` for the POSIX separator (the `Clean`
normalisation step is irrelevant to the claims: paths are only compared
to the oracle's answers). -/
def joinPath (a b : String) : String := a ++ "/" ++ b

/-- Model of `filepath.IsAbs` on POSIX. -/
def isAbsPath (s : String) : Bool := s.toList.head? = some '/'

/-- Model of `filepath.Base` on POSIX. -/
def baseName (p : String) : String :=
  if p = "" then "."
  else
    let cs := (p.toList.reverse.dropWhile (· = '/'))
    if cs = [] then "/"
    else String.mk ((cs.takeWhile (· ≠ '/')).reverse)

/-- Model of `strings.Fields`: splits around runs of whitespace. -/
def fieldsOfAux : List Char → List Char → List String
  | acc, [] => if acc = [] then [] else [String.mk acc.reverse]
  | acc, c :: rest =>
    if isSpaceChar c then
      if acc = [] then fieldsOfAux [] rest
      else String.mk acc.reverse :: fieldsOfAux [] rest
    else fieldsOfAux (c :: acc) rest

/-- Model of `strings.Fields`. -/
def fieldsOf (s : String) : List String := fieldsOfAux [] s.toList

/-- Model of `strings.TrimSuffix`. -/
def trimSuffixStr (s suf : String) : String :=
  if suf.toList.isSuffixOf s.toList then
    String.mk (s.toList.take (s.toList.length - suf.toList.length))
  else s

/-- Substring search on character lists (`strings.Contains`). -/
def containsSub (needle : List Char) : List Char → Bool
  | [] => needle.isPrefixOf []
  | c :: rest => needle.isPrefixOf (c :: rest) || containsSub needle rest

/-- Model of `strings.Contains`. -/
def containsStr (hay needle : String) : Bool :=
  containsSub needle.toList hay.toList

/-- Model of `strings.Split(s, "\n")` on character lists (single-character
separator). -/
def splitNL : List Char → List (List Char)
  | [] => [[]]
  | c :: rest =>
    if c = '\n' then [] :: splitNL rest
    else
      match splitNL rest with
      | [] => [[c]]
      | g :: gs => (c :: g) :: gs

/-- Model of `strings.Join(lines, "\n")` on character lists. -/
def joinNL : List (List Char) → List Char
  | [] => []
  | [g] => g
  | g :: gs => g ++ '\n' :: joinNL gs

/-- Model of `strings.TrimRight(s, "\n")` on character lists. -/
def trimRightNL (cs : List Char) : List Char :=
  (cs.reverse.dropWhile (· = '\n')).reverse

/-- Byte-order comparison of two strings as character lists; agrees with
Go's `sort.Strings` byte comparison because UTF-8 is order-preserving. -/
def charListLe : List Char → List Char → Bool
  | [], _ => true
  | _ :: _, [] => false
  | a :: as, b :: bs =>
    if a.toNat < b.toNat then true
    else if b.toNat < a.toNat then false
    else charListLe as bs

/-- The string order `sort.Strings` sorts by. -/
def strLe (a b : String) : Prop := charListLe a.toList b.toList = true

instance : DecidableRel strLe := fun a b => by unfold strLe; infer_instance

/-! ### Data model (`internal/provider` and `internal/report`)

Go `map[string]string` environment overlays are represented as
association lists; a list with duplicate-free keys is the image of a Go
map (map iteration order is irrelevant here because distinct-key updates
commute, see the determinism lemmas). -/

/-- `provider.Defaults`. -/
structure Defaults where
  runShell : String
  workingDirectory : String
deriving Repr, DecidableEq

/-- `provider.Step`. -/
structure Step where
  name : String
  run : String
  uses : String
  shell : String
  workingDirectory : String
  env : List (String × String)
deriving Repr, DecidableEq

/-- `provider.Job`. -/
structure Job where
  name : String
  rawID : String
  env : List (String × String)
  defaults : Defaults
  steps : List Step
deriving Repr, DecidableEq

/-- `provider.Workflow`. -/
structure Workflow where
  path : String
  name : String
  env : List (String × String)
  defaults : Defaults
  jobs : List Job
deriving Repr, DecidableEq

/-- `report.StepResult` (durations in nanoseconds). -/
structure StepResult where
  workflowPath : String
  workflowName : String
  jobName : String
  stepName : String
  stepRun : String
  status : String
  duration : Nat
  durationMS : Nat
  stdout : String
  stderr : String
  exitCode : Int
  dryRun : Bool
deriving Repr, DecidableEq

/-- `report.Summary`. -/
structure Summary where
  totalWorkflows : Nat
  totalJobs : Nat
  totalSteps : Nat
  passed : Nat
  failed : Nat
  skipped : Nat
  duration : Nat
  durationMS : Nat
  exitCode : Nat
deriving Repr, DecidableEq

/-- The zero `report.Summary` value. -/
def Summary.zero : Summary :=
  { totalWorkflows := 0, totalJobs := 0, totalSteps := 0, passed := 0,
    failed := 0, skipped := 0, duration := 0, durationMS := 0, exitCode := 0 }

/-- `runner.Options` after `runner.New` normalisation (`TailLines > 0`,
non-nil `Env`/patterns); writers and the clock live in the oracles. -/
structure Options where
  root : String
  verbose : Bool
  dryRun : Bool
  tailLines : Nat
  env : List String
  allowPrivileged : Bool
  privilegedPatterns : List String

/-! ### Environment merging (`mergeEnv`) -/

/-- Go map assignment `envMap[k] = v` on the association-list model
(keys stay duplicate-free when they start out that way). -/
def envSet : List (String × String) → String → String → List (String × String)
  | [], k, v => [(k, v)]
  | p :: rest, k, v => if p.1 = k then (k, v) :: rest else p :: envSet rest k v

/-- Go map lookup `envMap[k]` on the association-list model. -/
def envLookup : List (String × String) → String → Option String
  | [], _ => none
  | p :: rest, k => if p.1 = k then some p.2 else envLookup rest k

/-- The first loop of `mergeEnv`: fold the base `KEY=VALUE` entries into
the map, silently skipping entries without `'='`. -/
def baseInto (m : List (String × String)) : List String → List (String × String)
  | [] => m
  | kv :: rest =>
    match splitEq kv with
    | some (k, v) => baseInto (envSet m k v) rest
    | none => baseInto m rest

/-- The value the base environment contributes for key `k`
(last well-formed entry wins, as consecutive map assignments do). -/
def baseValue : List String → String → Option String
  | [], _ => none
  | kv :: rest, k =>
    (baseValue rest k).orElse fun _ =>
      match splitEq kv with
      | some (k', v) => if k' = k then some v else none
      | none => none

/-- The second loop of `mergeEnv`: apply one overlay map. -/
def applyOverlay (m : List (String × String)) (ov : List (String × String)) :
    List (String × String) :=
  ov.foldl (fun m p => envSet m p.1 p.2) m

/-- The map `mergeEnv` builds before sorting. -/
def mergeMap (base : List String) (overlays : List (List (String × String))) :
    List (String × String) :=
  overlays.foldl applyOverlay (baseInto [] base)

/-- `runner.mergeEnv`: key-sorted `KEY=VALUE` output (the Go locals
`envMap`/`keys` are inlined). -/
def mergeEnv (base : List String) (overlays : List (List (String × String))) :
    List String :=
  (List.insertionSort strLe ((mergeMap base overlays).map Prod.fst)).map
    (fun k => k ++ "=" ++ ((envLookup (mergeMap base overlays) k).getD ""))

/-! ### Output post-processing (`tailLines`, `simplifyError`) -/

/-- `runner.tailLines`. -/
def tailLines (input : String) (maxLines : Nat) : String :=
  if input = "" then ""
  else
    let lines := splitNL (trimRightNL input.toList)
    if lines.length ≤ maxLines then String.mk (joinNL lines)
    else String.mk (joinNL (lines.drop (lines.length - maxLines)))

/-- The literal `bundler' \(` prefix of `bundlerVersionRegex`. -/
def bundlerLit : List Char := ("bundler" ++ String.mk [sq] ++ " (").toList

/-- `cs.span Char.isDigit`, the `\d+` step of the version regex. -/
def digitSpan (cs : List Char) : List Char × List Char :=
  (cs.takeWhile Char.isDigit, cs.dropWhile Char.isDigit)

/-- Matching `(\d+\.\d+(?:\.\d+)?)\)` at a fixed position, with the
greedy-then-backtrack treatment of the optional third component that the
Go regexp engine applies. -/
def parseVersionAt (cs : List Char) : Option (List Char) :=
  let s1 := digitSpan cs
  if s1.1 = [] then none
  else
    match s1.2 with
    | '.' :: r2 =>
      let s2 := digitSpan r2
      if s2.1 = [] then none
      else
        match s2.2 with
        | '.' :: r4 =>
          let s3 := digitSpan r4
          if s3.1 ≠ [] ∧ s3.2.head? = some ')' then
            some (s1.1 ++ '.' :: s2.1 ++ '.' :: s3.1)
          else none
        | r3 => if r3.head? = some ')' then some (s1.1 ++ '.' :: s2.1) else none
    | _ => none

/-- Leftmost match of `bundlerVersionRegex`, returning the captured
version group. -/
def findBundlerVersion : List Char → Option (List Char)
  | [] => none
  | c :: rest =>
    if bundlerLit.isPrefixOf (c :: rest) then
      match parseVersionAt ((c :: rest).drop bundlerLit.length) with
      | some v => some v
      | none => findBundlerVersion rest
    else findBundlerVersion rest

/-- `runner.parseBundlerVersion` (`none` models Go's `""`). -/
def parseBundlerVersion (stderr : String) : Option String :=
  (findBundlerVersion stderr.toList).map String.mk

/-- The versioned remediation message of `simplifyError`. -/
def bundlerMsg (v : String) : String :=
  "missing bundler " ++ v ++ "; run `gem install bundler:" ++ v ++
    "` or `bundle update --bundler`"

/-- The unversioned remediation message of `simplifyError`. -/
def bundlerMsgGeneric : String :=
  "missing bundler; run `gem install bundler` or `bundle update --bundler`"

/-- The lower-cased signature `simplifyError` looks for. -/
def bundlerNeedle : String :=
  "could not find " ++ String.mk [sq] ++ "bundler" ++ String.mk [sq]

/-- `runner.simplifyError`. -/
def simplifyError (stderr : String) : String :=
  if containsStr (lowerStr stderr) bundlerNeedle then
    match parseBundlerVersion stderr with
    | some v => bundlerMsg v
    | none => bundlerMsgGeneric
  else stderr

/-! ### Privileged-command gate (`shouldSkipStep`)

`regexp.MatchString` is abstracted as a matcher `String → String →
Option Bool` (`none` = the pattern failed to compile).  `goMatch` below
gives the concrete RE2 semantics of the default pattern set; patterns
outside that set are not modelled. -/

/-- `runner.DefaultPrivilegedPatterns`. -/
def DefaultPrivilegedPatterns : List String :=
  ["(?i)^sudo\\b", "(?i)\\bapt-get\\b", "(?i)\\bapt\\b", "(?i)\\byum\\b",
   "(?i)\\bdnf\\b", "(?i)\\bzypper\\b", "(?i)\\bpacman\\b", "(?i)\\bbrew\\b",
   "(?i)\\bchoco\\b", "(?i)\\bwinget\\b", "(?i)\\bpip\\s+install\\s+--user",
   "(?i)\\bnpm\\s+install\\s+-g", "(?i)\\byarn\\s+global"]

/-- RE2 word character (`\w`), which `\b` boundaries are defined from. -/
def wordChar (c : Char) : Bool := c.isAlphanum || c = '_'

/-- RE2 `\s` class: `[\t\n\f\r ]`. -/
def isRegexSpace (c : Char) : Bool :=
  c = ' ' ∨ c = '\t' ∨ c = '\n' ∨ c = Char.ofNat 12 ∨ c = Char.ofNat 13

/-- Semantics of `(?i)^sudo\b` (anchored at the start of the text). -/
def matchStartSudo (script : String) : Bool :=
  let cs := (lowerStr script).toList
  "sudo".toList.isPrefixOf cs &&
    (match cs.drop 4 with
     | [] => true
     | c :: _ => !(wordChar c))

/-- `\b` to the left of a match position, given the preceding character. -/
def boundaryBefore (prev : Option Char) : Bool :=
  match prev with
  | none => true
  | some c => !(wordChar c)

/-- `\b` to the right of a match, given the remaining text. -/
def boundaryAfter (rest : List Char) : Bool :=
  match rest with
  | [] => true
  | c :: _ => !(wordChar c)

/-- Scan for `\bWORD\b` (word made of word characters at both ends). -/
def occursWordAux (w : List Char) : Option Char → List Char → Bool
  | prev, [] => boundaryBefore prev && w.isPrefixOf [] && boundaryAfter []
  | prev, c :: rest =>
    (boundaryBefore prev && w.isPrefixOf (c :: rest) &&
      boundaryAfter ((c :: rest).drop w.length))
    || occursWordAux w (some c) rest

/-- Semantics of `(?i)\bWORD\b`. -/
def matchWordCI (word script : String) : Bool :=
  occursWordAux word.toList none (lowerStr script).toList

/-- Strip an expected literal from the front of the text. -/
def dropLit (lit s : List Char) : Option (List Char) :=
  if lit.isPrefixOf s then some (s.drop lit.length) else none

/-- Strip `\s+` (at least one regex-space) from the front of the text. -/
def dropSpaces1 : List Char → Option (List Char)
  | [] => none
  | c :: rest =>
    if isRegexSpace c then some (rest.dropWhile isRegexSpace) else none

/-- Match `w₁\s+w₂\s+…\s+wₙ` at a fixed position. -/
def trySeq : List (List Char) → List Char → Bool
  | [], _ => true
  | w :: ws, s =>
    match dropLit w s with
    | none => false
    | some r =>
      if ws = [] then true
      else
        match dropSpaces1 r with
        | none => false
        | some r2 => trySeq ws r2

/-- Scan for `\bw₁\s+w₂\s+…\s+wₙ`. -/
def scanSeqAux (ws : List (List Char)) : Option Char → List Char → Bool
  | prev, [] => boundaryBefore prev && trySeq ws []
  | prev, c :: rest =>
    (boundaryBefore prev && trySeq ws (c :: rest)) || scanSeqAux ws (some c) rest

/-- Semantics of `(?i)\bw₁\s+w₂\s+…`. -/
def matchSeqCI (ws : List String) (script : String) : Bool :=
  scanSeqAux (ws.map String.toList) none (lowerStr script).toList

/-- Concrete model of `regexp.MatchString` for the default privileged
patterns; other patterns are outside the modelled fragment. -/
def goMatch (pattern script : String) : Option Bool :=
  if pattern = "(?i)^sudo\\b" then some (matchStartSudo script)
  else if pattern = "(?i)\\bapt-get\\b" then some (matchWordCI "apt-get" script)
  else if pattern = "(?i)\\bapt\\b" then some (matchWordCI "apt" script)
  else if pattern = "(?i)\\byum\\b" then some (matchWordCI "yum" script)
  else if pattern = "(?i)\\bdnf\\b" then some (matchWordCI "dnf" script)
  else if pattern = "(?i)\\bzypper\\b" then some (matchWordCI "zypper" script)
  else if pattern = "(?i)\\bpacman\\b" then some (matchWordCI "pacman" script)
  else if pattern = "(?i)\\bbrew\\b" then some (matchWordCI "brew" script)
  else if pattern = "(?i)\\bchoco\\b" then some (matchWordCI "choco" script)
  else if pattern = "(?i)\\bwinget\\b" then some (matchWordCI "winget" script)
  else if pattern = "(?i)\\bpip\\s+install\\s+--user" then
    some (matchSeqCI ["pip", "install", "--user"] script)
  else if pattern = "(?i)\\bnpm\\s+install\\s+-g" then
    some (matchSeqCI ["npm", "install", "-g"] script)
  else if pattern = "(?i)\\byarn\\s+global" then
    some (matchSeqCI ["yarn", "global"] script)
  else none

/-- The message a skipped privileged step carries. -/
def skipMessage (pattern : String) : String :=
  "skipped privileged command matching pattern " ++ goQuote pattern ++
    "; set DETEST_ALLOW_PRIVILEGED=1 to run"

/-- The pattern loop of `runner.shouldSkipStep`. -/
def firstSkip (m : String → String → Option Bool) (script : String) :
    List String → Option String
  | [] => none
  | p :: rest =>
    if p = "" then firstSkip m script rest
    else
      match m p script with
      | none => firstSkip m script rest
      | some true => some (skipMessage p)
      | some false => firstSkip m script rest

/-- `runner.shouldSkipStep` (`some msg` models `(msg, true)`). -/
def shouldSkipStep (m : String → String → Option Bool) (script : String)
    (opts : Options) : Option String :=
  if opts.allowPrivileged then none
  else firstSkip m script opts.privilegedPatterns

/-! ### System oracles and command resolution -/

/-- Outcome classes of `os.Stat`. -/
inductive StatRes
  | missing
  | dir
  | file
  | statErr
deriving Repr, DecidableEq

/-- The ambient system: file-system metadata, `os.Getwd`,
`os.UserHomeDir`, `runtime.GOOS`. -/
structure Sys where
  stat : String → StatRes
  getwd : Option String
  userHomeDir : Option String
  goos : String

/-- `os.Stat` succeeded (any file kind). -/
def statExists (sys : Sys) (p : String) : Bool :=
  match sys.stat p with
  | .dir => true
  | .file => true
  | _ => false

/-- `runner.getEnvValue`. -/
def getEnvValue : List String → String → String
  | [], _ => ""
  | kv :: rest, key =>
    match splitEq kv with
    | some (k, v) => if k = key then v else getEnvValue rest key
    | none => getEnvValue rest key

/-- `runner.getAsdfInit`. -/
def getAsdfInit (sys : Sys) (env : List String) (shellBase : String) : String :=
  let fromDir :=
    let d := getEnvValue env "ASDF_DIR"
    if d ≠ "" then
      let p := joinPath d "asdf.sh"
      if statExists sys p then p else ""
    else ""
  let asdfPath :=
    if fromDir ≠ "" then fromDir
    else
      let h := getEnvValue env "HOME"
      let home := if h = "" then sys.userHomeDir.getD "" else h
      if home ≠ "" then
        let p := joinPath (joinPath home ".asdf") "asdf.sh"
        if statExists sys p then p else ""
      else ""
  if asdfPath = "" then ""
  else if shellBase = "bash" ∨ shellBase = "zsh" then
    "source " ++ goQuote asdfPath ++ " && "
  else if shellBase = "ksh" ∨ shellBase = "sh" then
    ". " ++ goQuote asdfPath ++ " && "
  else if shellBase = "fish" then
    let fishPath := trimSuffixStr asdfPath ".sh" ++ ".fish"
    if statExists sys fishPath then "source " ++ goQuote fishPath ++ "; "
    else "source " ++ goQuote asdfPath ++ "; "
  else ""

/-- `runner.commandArgs` (the streaming-era version with version-manager
initialisation; the `[]` case is unreachable from `buildCommand`, where
Go would panic on an all-whitespace spec that `buildCommand` has already
trimmed away). -/
def commandArgs (sys : Sys) (env : List String) (shellSpec script : String) :
    List String :=
  if shellSpec = "" then
    if sys.goos = "windows" then ["cmd", "/C", script]
    else ["bash", "-l", "-c", getAsdfInit sys env "bash" ++ " " ++ script]
  else
    match fieldsOf shellSpec with
    | [] => []
    | shell :: args =>
      let base := lowerStr (baseName shell)
      if base = "bash" ∨ base = "zsh" ∨ base = "ksh" ∨ base = "fish" then
        shell :: (args ++ ["-l", "-c", getAsdfInit sys env base ++ " " ++ script])
      else if base = "sh" then
        shell :: (args ++ ["-c", getAsdfInit sys env "sh" ++ " " ++ script])
      else if base = "cmd" ∨ base = "cmd.exe" then
        shell :: (args ++ ["/C", script])
      else if base = "pwsh" ∨ base = "powershell" ∨ base = "powershell.exe" then
        shell :: (args ++ ["-Command", script])
      else if base = "python" ∨ base = "python3" ∨ base = "python.exe" then
        shell :: (args ++ ["-c", script])
      else
        shell :: (args ++ [script])

/-- `runner.buildCommand`: step shell, else job default, else workflow
default (each trimmed); always returns `ok` because `commandArgs` never
fails. -/
def buildCommand (sys : Sys) (env : List String) (step : Step) (job : Job)
    (wf : Workflow) : Except String (List String) :=
  let s1 := goTrimSpace step.shell
  let s2 := if s1 = "" then goTrimSpace job.defaults.runShell else s1
  let s3 := if s2 = "" then goTrimSpace wf.defaults.runShell else s2
  .ok (commandArgs sys env s3 step.run)

/-- The candidate loop of `runner.resolveWorkingDirectory`. -/
def resolveWDFrom (sys : Sys) (root : String) : List String → Except String String
  | [] =>
    if root = "" then
      match sys.getwd with
      | some d => .ok d
      | none => .error "determine working directory: getwd failed"
    else .ok root
  | cand :: rest =>
    let c := goTrimSpace cand
    if c = "" then resolveWDFrom sys root rest
    else
      let c2 := if isAbsPath c then c else joinPath root c
      match sys.stat c2 with
      | .missing => .error ("working directory " ++ goQuote c2 ++ " not found")
      | .statErr => .error ("stat working directory " ++ goQuote c2 ++ ": error")
      | .file => .error ("working directory " ++ goQuote c2 ++ " is not a directory")
      | .dir => .ok c2

/-- `runner.resolveWorkingDirectory`. -/
def resolveWorkingDirectory (sys : Sys) (root : String) (wf : Workflow)
    (job : Job) (step : Step) : Except String String :=
  resolveWDFrom sys root
    [step.workingDirectory, job.defaults.workingDirectory, wf.defaults.workingDirectory]

/-! ### Process execution (`runStep`) -/

/-- Outcome of `cmd.Run()`: `ok` is a nil error (exit status 0), `fail c`
is a non-nil error that `runner.exitCode` normalises to `c` (the real
exit status for `exec.ExitError`, 1 for spawn errors). -/
inductive ProcOutcome
  | ok (stdout stderr : String)
  | fail (exitCode : Int) (stdout stderr : String)

/-- What one call of `runner.runStep` writes into the `StepResult` plus
whether it returned a non-nil error, whether a subprocess was spawned,
and the bytes the `io.MultiWriter` mirrored to the console in verbose
mode. -/
structure StepOut where
  stdout : String
  stderr : String
  exitCode : Int
  isErr : Bool
  spawned : Bool
  echoOut : String
  echoErr : String
deriving Repr, DecidableEq

/-- `runner.runStep`, with `proc` the behaviour of `cmd.Run()` on the
resolved argument vector, working directory and merged environment. -/
def runStep (opts : Options) (sys : Sys)
    (proc : List String → String → List String → ProcOutcome)
    (wf : Workflow) (job : Job) (step : Step) : StepOut :=
  let env := mergeEnv opts.env [wf.env, job.env, step.env]
  match buildCommand sys env step job wf with
  | .error e =>
    { stdout := "", stderr := e, exitCode := 127, isErr := true, spawned := false,
      echoOut := "", echoErr := "" }
  | .ok cmdArgs =>
    match resolveWorkingDirectory sys opts.root wf job step with
    | .error e =>
      { stdout := "", stderr := e, exitCode := 127, isErr := true, spawned := false,
        echoOut := "", echoErr := "" }
    | .ok dir =>
      match proc cmdArgs dir env with
      | .ok rawOut rawErr =>
        { stdout := rawOut, stderr := simplifyError rawErr, exitCode := 0,
          isErr := false, spawned := true,
          echoOut := if opts.verbose then rawOut else "",
          echoErr := if opts.verbose then rawErr else "" }
      | .fail c rawOut rawErr =>
        { stdout := rawOut, stderr := simplifyError rawErr, exitCode := c,
          isErr := true, spawned := true,
          echoOut := if opts.verbose then rawOut else "",
          echoErr := if opts.verbose then rawErr else "" }

/-! ### The orchestration loops -/

/-- The effectful collaborators of a run: the regexp engine, the system,
the `n`-th spawned subprocess's behaviour, and the wall-clock time the
`n`-th executed step takes (difference of the two `Now()` calls). -/
structure Oracles where
  matcher : String → String → Option Bool
  sys : Sys
  procs : Nat → List String → String → List String → ProcOutcome
  elapsed : Nat → Nat

/-- Loop state: results so far, the summary accumulator, how many steps
reached execution (`Now()` pairs consumed), how many subprocesses were
spawned. -/
structure RunState where
  results : List StepResult
  summary : Summary
  attempts : Nat
  spawned : Nat

/-- Initial loop state for a workflow list. -/
def initState (wfs : List Workflow) : RunState :=
  { results := [], summary := { Summary.zero with totalWorkflows := wfs.length },
    attempts := 0, spawned := 0 }

/-- A step the engine executes: non-empty `Run`, empty `Uses`
(`if step.Run == "" || step.Uses != "" { continue }`). -/
def eligible (step : Step) : Bool := !(step.run == "" || step.uses != "")

/-- The freshly initialised `StepResult` for a step. -/
def initResult (opts : Options) (wf : Workflow) (job : Job) (step : Step) : StepResult :=
  { workflowPath := wf.path, workflowName := wf.name, jobName := job.name,
    stepName := step.name, stepRun := step.run, status := "", duration := 0,
    durationMS := 0, stdout := "", stderr := "", exitCode := 0,
    dryRun := opts.dryRun }

/-- The body of the step loop shared by `Run`(v1)/`runBatch`. -/
def processStep (opts : Options) (or : Oracles) (wf : Workflow) (job : Job)
    (step : Step) (st : RunState) : RunState :=
  if !eligible step then st
  else
    let summary1 := { st.summary with totalSteps := st.summary.totalSteps + 1 }
    let base := initResult opts wf job step
    match shouldSkipStep or.matcher step.run opts with
    | some msg =>
      { st with
        summary := { summary1 with skipped := summary1.skipped + 1 },
        results := st.results ++ [{ base with status := "skipped", stderr := msg }] }
    | none =>
      if opts.dryRun then
        { st with
          summary := { summary1 with skipped := summary1.skipped + 1 },
          results := st.results ++ [{ base with status := "skipped" }] }
      else
        let d := or.elapsed st.attempts
        let so := runStep opts or.sys (or.procs st.spawned) wf job step
        let r1 := { base with
          stdout := so.stdout, stderr := so.stderr,
          exitCode := so.exitCode, duration := d, durationMS := d / 1000000 }
        let r2 :=
          if so.isErr then
            { r1 with
              status := "failed",
              stderr := tailLines r1.stderr opts.tailLines,
              stdout := tailLines r1.stdout opts.tailLines }
          else { r1 with status := "passed" }
        let summary2 :=
          if so.isErr then { summary1 with failed := summary1.failed + 1 }
          else { summary1 with passed := summary1.passed + 1 }
        let summary3 := { summary2 with duration := summary2.duration + d }
        let summary4 :=
          if r2.status = "failed" then { summary3 with exitCode := 1 } else summary3
        { results := st.results ++ [r2], summary := summary4,
          attempts := st.attempts + 1,
          spawned := st.spawned + (if so.spawned then 1 else 0) }

/-- The `for _, step := range job.Steps` loop. -/
def stepLoop (opts : Options) (or : Oracles) (wf : Workflow) (job : Job) :
    List Step → RunState → RunState
  | [], st => st
  | s :: rest, st => stepLoop opts or wf job rest (processStep opts or wf job s st)

/-- The `for _, job := range wf.Jobs` loop. -/
def jobLoop (opts : Options) (or : Oracles) (wf : Workflow) :
    List Job → RunState → RunState
  | [], st => st
  | j :: rest, st => jobLoop opts or wf rest (stepLoop opts or wf j j.steps st)

/-- The `for _, wf := range workflows` loop, including the per-workflow
`summary.TotalJobs` update. -/
def wfLoop (opts : Options) (or : Oracles) : List Workflow → RunState → RunState
  | [], st => st
  | wf :: rest, st =>
    let st1 := { st with
      summary := { st.summary with totalJobs := st.summary.totalJobs + wf.jobs.length } }
    wfLoop opts or rest (jobLoop opts or wf wf.jobs st1)

/-- The final loop state of a batch run. -/
def runBatchState (opts : Options) (or : Oracles) (wfs : List Workflow) : RunState :=
  wfLoop opts or wfs (initState wfs)

/-- `Runner.Run` (v1) / `Runner.runBatch`: the step results, the summary
with `DurationMS` filled in, and the always-nil error. -/
def runBatch (opts : Options) (or : Oracles) (wfs : List Workflow) :
    List StepResult × Summary × Option String :=
  let st := runBatchState opts or wfs
  (st.results, { st.summary with durationMS := st.summary.duration / 1000000 }, none)

/-! ### The streaming loop (`runStreaming`) -/

/-- One renderer invocation, recorded in source order with the exact
arguments the runner passes. -/
inductive REvent
  | initAllJobs (wfs : List Workflow)
  | startJob (name : String)
  | startStep (name : String)
  | completeStep (name status : String) (duration : Nat) (stdout stderr cmd : String)
  | completeJob
  | renderSummary (s : Summary)
deriving Repr, DecidableEq

/-- The `output.StreamingRenderer` responses (`none` = nil error).  The
live-timer side channel is display-only and carries no run state. -/
structure Renderer where
  initAllJobs : List Workflow → Option String
  startJob : String → Option String
  startStep : String → Option String
  completeStep : String → String → Nat → String → String → String → Option String
  completeJob : Option String
  renderSummary : Summary → Option String

/-- Streaming loop state: the batch state plus the renderer call trace. -/
structure SState where
  st : RunState
  events : List REvent

/-- The streaming step body; `.error` is the `return nil, summary, err`
path taken when a renderer call fails. -/
def sProcessStep (opts : Options) (rd : Renderer) (or : Oracles) (wf : Workflow)
    (job : Job) (step : Step) (s : SState) : Except (Summary × String) SState :=
  if !eligible step then .ok s
  else
    let summary1 := { s.st.summary with totalSteps := s.st.summary.totalSteps + 1 }
    let st1 := { s.st with summary := summary1 }
    let base := initResult opts wf job step
    let ev1 := s.events ++ [REvent.startStep step.name]
    match rd.startStep step.name with
    | some e => .error (summary1, e)
    | none =>
      match shouldSkipStep or.matcher step.run opts with
      | some msg =>
        let summary2 := { summary1 with skipped := summary1.skipped + 1 }
        let st2 := { st1 with
          summary := summary2,
          results := st1.results ++ [{ base with status := "skipped", stderr := msg }] }
        let ev2 := ev1 ++ [REvent.completeStep step.name "skipped" 0 "" msg step.run]
        match rd.completeStep step.name "skipped" 0 "" msg step.run with
        | some e => .error (summary2, e)
        | none => .ok { st := st2, events := ev2 }
      | none =>
        if opts.dryRun then
          let summary2 := { summary1 with skipped := summary1.skipped + 1 }
          let st2 := { st1 with
            summary := summary2,
            results := st1.results ++ [{ base with status := "skipped" }] }
          let ev2 := ev1 ++ [REvent.completeStep step.name "skipped" 0 "" "" step.run]
          match rd.completeStep step.name "skipped" 0 "" "" step.run with
          | some e => .error (summary2, e)
          | none => .ok { st := st2, events := ev2 }
        else
          let d := or.elapsed st1.attempts
          let so := runStep opts or.sys (or.procs st1.spawned) wf job step
          let r1 := { base with
            stdout := so.stdout, stderr := so.stderr,
            exitCode := so.exitCode, duration := d, durationMS := d / 1000000 }
          let r2 :=
            if so.isErr then
              { r1 with
                status := "failed",
                stderr := tailLines r1.stderr opts.tailLines,
                stdout := tailLines r1.stdout opts.tailLines }
            else { r1 with status := "passed" }
          let summary2 :=
            if so.isErr then { summary1 with failed := summary1.failed + 1 }
            else { summary1 with passed := summary1.passed + 1 }
          let summary3 := { summary2 with duration := summary2.duration + d }
          let summary4 :=
            if r2.status = "failed" then { summary3 with exitCode := 1 } else summary3
          let st2 : RunState :=
            { results := st1.results ++ [r2], summary := summary4,
              attempts := st1.attempts + 1,
              spawned := st1.spawned + (if so.spawned then 1 else 0) }
          let ev2 := ev1 ++ [REvent.completeStep step.name r2.status r2.duration r2.stdout r2.stderr step.run]
          match rd.completeStep step.name r2.status r2.duration r2.stdout r2.stderr step.run with
          | some e => .error (summary4, e)
          | none => .ok { st := st2, events := ev2 }

/-- Streaming step loop. -/
def sStepLoop (opts : Options) (rd : Renderer) (or : Oracles) (wf : Workflow)
    (job : Job) : List Step → SState → Except (Summary × String) SState
  | [], s => .ok s
  | step :: rest, s =>
    match sProcessStep opts rd or wf job step s with
    | .error e => .error e
    | .ok s1 => sStepLoop opts rd or wf job rest s1

/-- Streaming job loop: `StartJob` (error discarded), the steps, then
`CompleteJob` (error fatal). -/
def sJobLoop (opts : Options) (rd : Renderer) (or : Oracles) (wf : Workflow) :
    List Job → SState → Except (Summary × String) SState
  | [], s => .ok s
  | j :: rest, s =>
    let s1 := { s with events := s.events ++ [REvent.startJob j.name] }
    match sStepLoop opts rd or wf j j.steps s1 with
    | .error e => .error e
    | .ok s2 =>
      let s3 := { s2 with events := s2.events ++ [REvent.completeJob] }
      match rd.completeJob with
      | some e => .error (s2.st.summary, e)
      | none => sJobLoop opts rd or wf rest s3

/-- Streaming workflow loop. -/
def sWfLoop (opts : Options) (rd : Renderer) (or : Oracles) :
    List Workflow → SState → Except (Summary × String) SState
  | [], s => .ok s
  | wf :: rest, s =>
    let s1 := { s with st := { s.st with
      summary := { s.st.summary with totalJobs := s.st.summary.totalJobs + wf.jobs.length } } }
    match sJobLoop opts rd or wf wf.jobs s1 with
    | .error e => .error e
    | .ok s2 => sWfLoop opts rd or rest s2

/-- `Runner.runStreaming` including the renderer call trace:
`InitializeAllJobs` up front (error discarded), the loops, then
`RenderSummary` on the finished summary. -/
def runStreamingFull (opts : Options) (rd : Renderer) (or : Oracles)
    (wfs : List Workflow) : Except (Summary × String) (SState × Summary) :=
  let s0 : SState := { st := initState wfs, events := [REvent.initAllJobs wfs] }
  match sWfLoop opts rd or wfs s0 with
  | .error e => .error e
  | .ok s =>
    let summary := { s.st.summary with durationMS := s.st.summary.duration / 1000000 }
    let s1 := { s with events := s.events ++ [REvent.renderSummary summary] }
    match rd.renderSummary summary with
    | some e => .error (summary, e)
    | none => .ok (s1, summary)

/-- `Runner.runStreaming` seen through its Go return type
(`nil` results on a renderer error). -/
def runStreaming (opts : Options) (rd : Renderer) (or : Oracles)
    (wfs : List Workflow) : List StepResult × Summary × Option String :=
  match runStreamingFull opts rd or wfs with
  | .error (sum, e) => ([], sum, some e)
  | .ok (s, summary) => (s.st.results, summary, none)

/-- `Runner.Run` (streaming-era dispatcher). -/
def runnerRun (streaming : Bool) (opts : Options) (rd : Renderer) (or : Oracles)
    (wfs : List Workflow) : List StepResult × Summary × Option String :=
  if streaming then runStreaming opts rd or wfs else runBatch opts or wfs

/-! ### Derived views used by the statements -/

/-- The eligible steps of a workflow list, flattened in source order with
their workflow and job. -/
def eligibleTriples (wfs : List Workflow) : List (Workflow × Job × Step) :=
  wfs.flatMap fun wf =>
    wf.jobs.flatMap fun job =>
      (job.steps.filter eligible).map fun s => (wf, job, s)

/-- The identifying fields of a result row. -/
def resultKey (r : StepResult) : String × String × String × String × String :=
  (r.workflowPath, r.workflowName, r.jobName, r.stepName, r.stepRun)

/-- The identifying fields a step's row must carry. -/
def tripleKey (t : Workflow × Job × Step) : String × String × String × String × String :=
  (t.1.path, t.1.name, t.2.1.name, t.2.2.name, t.2.2.run)

/-- Modelled from the spec ("step env always wins over job env wins over
workflow env; untouched keys pass through unchanged"): the value the
merged environment is required to assign to a key. -/
def specPrecedence (base : List String) (wfE jobE stepE : List (String × String))
    (k : String) : Option String :=
  (envLookup stepE k).orElse fun _ =>
    (envLookup jobE k).orElse fun _ =>
      (envLookup wfE k).orElse fun _ => baseValue base k

/-- A base entry is well-formed when it contains an `'='`. -/
def wellFormedEntry (kv : String) : Bool := (splitEq kv).isSome

/-- The keys of a base environment's well-formed entries. -/
def wfKeys (base : List String) : List String :=
  base.filterMap fun kv => (splitEq kv).map Prod.fst

/-- The two `Summary` bookkeeping invariants of the aggregator. -/
def sumInv (st : RunState) : Prop :=
  st.summary.passed + st.summary.failed + st.summary.skipped = st.summary.totalSteps ∧
  st.summary.exitCode = if 0 < st.summary.failed then 1 else 0

/-- The shell specification `buildCommand` resolves (step, else job
default, else workflow default, each trimmed). -/
def shellSpecOf (step : Step) (job : Job) (wf : Workflow) : String :=
  let s1 := goTrimSpace step.shell
  let s2 := if s1 = "" then goTrimSpace job.defaults.runShell else s1
  if s2 = "" then goTrimSpace wf.defaults.runShell else s2

/-- A renderer none of whose status-bearing calls returns an error. -/
def rendererOk (rd : Renderer) : Prop :=
  (∀ n, rd.startStep n = none) ∧
  (∀ a b c d e f, rd.completeStep a b c d e f = none) ∧
  rd.completeJob = none ∧ (∀ s, rd.renderSummary s = none)

/-- The shell basenames `commandArgs` special-cases. -/
def recognizedBase (b : String) : Bool :=
  b = "bash" ∨ b = "zsh" ∨ b = "ksh" ∨ b = "fish" ∨ b = "sh" ∨ b = "cmd" ∨
  b = "cmd.exe" ∨ b = "pwsh" ∨ b = "powershell" ∨ b = "powershell.exe" ∨
  b = "python" ∨ b = "python3" ∨ b = "python.exe"

/-- The missing-bundler stderr prefix used in the general rewrite lemma. -/
def bundlerErrPre : String :=
  "Could not find " ++ String.mk [sq] ++ "bundler" ++ String.mk [sq] ++ " (2.6.9)"

/-- The renderer call trace of a streaming run that finishes without a
renderer error. -/
def runStreamingEvents (opts : Options) (rd : Renderer) (or : Oracles)
    (wfs : List Workflow) : List REvent :=
  match runStreamingFull opts rd or wfs with
  | .ok (s, _) => s.events
  | .error _ => []

/-! ### Concrete fixtures used by the closed statements -/

/-- A one-job workflow around a single `run:` script (mirrors the shape
the runner's own tests use). -/
def sampleWorkflow (script : String) : Workflow :=
  { path := "wf.yml", name := "workflow",
    env := [], defaults := { runShell := "", workingDirectory := "" },
    jobs := [{ name := "job", rawID := "job", env := [],
               defaults := { runShell := "", workingDirectory := "" },
               steps := [{ name := "step", run := script, uses := "", shell := "",
                           workingDirectory := "", env := [] }] }] }

/-- Default post-`New` options for the concrete runs. -/
def opts0 : Options :=
  { root := "/proj", verbose := false, dryRun := false, tailLines := 20,
    env := [], allowPrivileged := false,
    privilegedPatterns := DefaultPrivilegedPatterns }

/-- Options with the dry-run flag set. -/
def optsDry : Options := { opts0 with dryRun := true }

/-- Options with the privileged override active. -/
def optsAllow : Options := { opts0 with allowPrivileged := true }

/-- Options with `TailLines = 2` for the truncation scenarios. -/
def opts2 : Options := { opts0 with tailLines := 2 }

/-- Options with verbose mirroring on. -/
def optsVerb : Options := { opts0 with verbose := true }

/-- A system oracle on a POSIX host with no interesting files. -/
def sys0 : Sys :=
  { stat := fun _ => .missing, getwd := some "/cwd", userHomeDir := none,
    goos := "linux" }

/-- A system oracle where only `/proj/missing` is absent. -/
def sysWd : Sys :=
  { sys0 with stat := fun p => if p = "/proj/missing" then .missing else .dir }

/-- The `echo hi` step of the spec's scenario. -/
def step01 : Step :=
  { name := "step1", run := "echo hi", uses := "", shell := "",
    workingDirectory := "", env := [] }

/-- The `exit 3` step of the spec's scenario. -/
def step02 : Step :=
  { name := "step2", run := "exit 3", uses := "", shell := "",
    workingDirectory := "", env := [] }

/-- The `echo hi` / `exit 3` two-step workflow of the spec's scenario. -/
def wf0 : Workflow :=
  { path := "wf.yml", name := "workflow",
    env := [], defaults := { runShell := "", workingDirectory := "" },
    jobs := [{ name := "job", rawID := "job", env := [],
               defaults := { runShell := "", workingDirectory := "" },
               steps := [step01, step02] }] }

/-- Oracles for `wf0`: the first subprocess prints `hi` and exits 0, the
second exits 3. -/
def or0 : Oracles :=
  { matcher := goMatch, sys := sys0,
    procs := fun n _ _ _ => if n = 0 then .ok "hi\n" "" else .fail 3 "" "",
    elapsed := fun _ => 0 }

/-- A workflow whose script contains `sudo ` in the middle. -/
def wfSudo : Workflow := sampleWorkflow "echo hi && sudo reboot"

/-- Oracles whose single subprocess succeeds silently. -/
def orSudo : Oracles := { or0 with procs := fun _ _ _ _ => .ok "" "" }

/-- A step that names a missing working directory. -/
def stepWd1 : Step :=
  { name := "step1", run := "echo first", uses := "", shell := "",
    workingDirectory := "missing", env := [] }

/-- A step with no working-directory override. -/
def stepWd2 : Step :=
  { name := "step2", run := "echo second", uses := "", shell := "",
    workingDirectory := "", env := [] }

/-- The job holding `stepWd1` and `stepWd2`. -/
def jobWd : Job :=
  { name := "job", rawID := "job", env := [],
    defaults := { runShell := "", workingDirectory := "" },
    steps := [stepWd1, stepWd2] }

/-- A two-step workflow whose first step names a missing working
directory. -/
def wfWd : Workflow :=
  { path := "wf.yml", name := "workflow",
    env := [], defaults := { runShell := "", workingDirectory := "" },
    jobs := [jobWd] }

/-- Oracles for `wfWd`: the working-directory oracle is `sysWd` and any
spawned subprocess succeeds. -/
def orWd : Oracles :=
  { matcher := goMatch, sys := sysWd, procs := fun _ _ _ _ => .ok "" "",
    elapsed := fun _ => 0 }

/-- A step that prints three lines and fails. -/
def stepTail : Step :=
  { name := "step", run := "seq 3", uses := "", shell := "",
    workingDirectory := "", env := [] }

/-- The job holding `stepTail`. -/
def jobTail : Job :=
  { name := "job", rawID := "job", env := [],
    defaults := { runShell := "", workingDirectory := "" }, steps := [stepTail] }

/-- A workflow whose single step fails with three lines on stdout. -/
def wfTail : Workflow :=
  { path := "wf.yml", name := "workflow",
    env := [], defaults := { runShell := "", workingDirectory := "" },
    jobs := [jobTail] }

/-- Oracles for `wfTail`: the subprocess prints `1\n2\n3\n` and exits 1. -/
def orTail : Oracles := { or0 with procs := fun _ _ _ _ => .fail 1 "1\n2\n3\n" "" }

/-- A renderer all of whose calls succeed. -/
def rd0 : Renderer :=
  { initAllJobs := fun _ => none, startJob := fun _ => none,
    startStep := fun _ => none, completeStep := fun _ _ _ _ _ _ => none,
    completeJob := none, renderSummary := fun _ => none }

/-- An empty job, used to exercise loop lemmas at a concrete state. -/
def job0 : Job :=
  { name := "job", rawID := "job", env := [],
    defaults := { runShell := "", workingDirectory := "" }, steps := [] }

/-- A loop state whose aggregate exit code is already 1. -/
def stExit : RunState :=
  { results := [], summary := { Summary.zero with exitCode := 1 },
    attempts := 0, spawned := 0 }

/-! ## Lemmas -/

theorem char_toNat_inj {a b : Char} (h : a.toNat = b.toNat) : a = b := by
  unfold Char.toNat at h
  exact Char.ext (UInt32.ext h)

theorem string_data_inj {a b : String} (h : a.toList = b.toList) : a = b := by
  cases a
  cases b
  exact congrArg String.mk h

theorem charListLe_cons {x y : Char} {xs ys : List Char} :
    charListLe (x :: xs) (y :: ys) = true ↔
      x.toNat < y.toNat ∨ (x.toNat = y.toNat ∧ charListLe xs ys = true) := by
  simp only [charListLe]
  by_cases h1 : x.toNat < y.toNat
  · simp [h1]
  · by_cases h2 : y.toNat < x.toNat
    · rw [if_neg h1, if_pos h2]
      constructor
      · intro h; exact absurd h (by simp)
      · rintro (h | ⟨h, _⟩) <;> omega
    · rw [if_neg h1, if_neg h2]
      constructor
      · intro h; exact Or.inr ⟨by omega, h⟩
      · rintro (h | ⟨_, h⟩)
        · omega
        · exact h

theorem charListLe_total (a b : List Char) :
    charListLe a b = true ∨ charListLe b a = true := by
  induction a generalizing b with
  | nil => left; rfl
  | cons x xs ih =>
    cases b with
    | nil => right; rfl
    | cons y ys =>
      rcases Nat.lt_trichotomy x.toNat y.toNat with h | h | h
      · left; exact charListLe_cons.mpr (Or.inl h)
      · rcases ih ys with h2 | h2
        · left; exact charListLe_cons.mpr (Or.inr ⟨h, h2⟩)
        · right; exact charListLe_cons.mpr (Or.inr ⟨h.symm, h2⟩)
      · right; exact charListLe_cons.mpr (Or.inl h)

theorem charListLe_trans {a b c : List Char} (h1 : charListLe a b = true)
    (h2 : charListLe b c = true) : charListLe a c = true := by
  induction a generalizing b c with
  | nil => rfl
  | cons x xs ih =>
    cases b with
    | nil => simp [charListLe] at h1
    | cons y ys =>
      cases c with
      | nil => simp [charListLe] at h2
      | cons z zs =>
        rcases charListLe_cons.mp h1 with hx | ⟨hx, hx2⟩ <;>
          rcases charListLe_cons.mp h2 with hy | ⟨hy, hy2⟩
        · exact charListLe_cons.mpr (Or.inl (hx.trans hy))
        · exact charListLe_cons.mpr (Or.inl (hy ▸ hx))
        · exact charListLe_cons.mpr (Or.inl (hx ▸ hy))
        · exact charListLe_cons.mpr (Or.inr ⟨hx.trans hy, ih hx2 hy2⟩)

theorem charListLe_antisymm {a b : List Char} (h1 : charListLe a b = true)
    (h2 : charListLe b a = true) : a = b := by
  induction a generalizing b with
  | nil =>
    cases b with
    | nil => rfl
    | cons y ys => simp [charListLe] at h2
  | cons x xs ih =>
    cases b with
    | nil => simp [charListLe] at h1
    | cons y ys =>
      rcases charListLe_cons.mp h1 with hx | ⟨hx, hx2⟩ <;>
        rcases charListLe_cons.mp h2 with hy | ⟨hy, hy2⟩
      · omega
      · omega
      · omega
      · rw [char_toNat_inj hx, ih hx2 hy2]

instance : IsTotal String strLe := ⟨fun a b => charListLe_total a.toList b.toList⟩

instance : IsTrans String strLe :=
  ⟨fun _ _ _ h1 h2 => charListLe_trans h1 h2⟩

instance : IsAntisymm String strLe :=
  ⟨fun _ _ h1 h2 => string_data_inj (charListLe_antisymm h1 h2)⟩

/-! ### `mergeEnv` lookup lemmas -/

theorem envLookup_envSet (m : List (String × String)) (k v k' : String) :
    envLookup (envSet m k v) k' = if k' = k then some v else envLookup m k' := by
  induction m with
  | nil =>
    by_cases hk : k' = k
    · simp [envSet, envLookup, hk]
    · have hk2 : ¬ k = k' := fun h => hk h.symm
      simp [envSet, envLookup, hk, hk2]
  | cons p rest ih =>
    by_cases hp : p.1 = k
    · simp only [envSet, if_pos hp]
      by_cases hk : k' = k
      · subst hk
        simp [envLookup]
      · have hk2 : ¬ k = k' := fun h => hk h.symm
        have hp2 : ¬ p.1 = k' := fun h => hk (hp.symm.trans h).symm
        simp [envLookup, hk, hk2, hp2]
    · simp only [envSet, if_neg hp, envLookup, ih]
      by_cases hpk : p.1 = k'
      · have : ¬ k' = k := fun h => hp (hpk.trans h)
        simp [hpk, this]
      · simp [hpk]

theorem envLookup_eq_none_iff (m : List (String × String)) (k : String) :
    envLookup m k = none ↔ k ∉ m.map Prod.fst := by
  induction m with
  | nil => simp [envLookup]
  | cons p rest ih =>
    by_cases hp : p.1 = k
    · simp [envLookup, hp]
    · have hp2 : ¬ k = p.1 := fun h => hp h.symm
      simp [envLookup, hp, hp2, ih]

theorem envLookup_isSome_iff (m : List (String × String)) (k : String) :
    (envLookup m k).isSome = true ↔ k ∈ m.map Prod.fst := by
  rw [← Decidable.not_not (p := k ∈ m.map Prod.fst), ← envLookup_eq_none_iff]
  cases envLookup m k <;> simp

theorem envLookup_applyOverlay (m ov : List (String × String)) (k : String)
    (h : (ov.map Prod.fst).Nodup) :
    envLookup (applyOverlay m ov) k =
      (envLookup ov k).orElse fun _ => envLookup m k := by
  induction ov generalizing m with
  | nil => simp [applyOverlay, envLookup, Option.orElse]
  | cons p rest ih =>
    simp only [List.map_cons, List.nodup_cons] at h
    have step : applyOverlay m (p :: rest) = applyOverlay (envSet m p.1 p.2) rest := rfl
    rw [step, ih _ h.2]
    by_cases hk : p.1 = k
    · subst hk
      have hnone : envLookup rest p.1 = none :=
        (envLookup_eq_none_iff rest p.1).mpr h.1
      simp [envLookup, hnone, Option.orElse, envLookup_envSet]
    · have hk2 : ¬ k = p.1 := fun h => hk h.symm
      simp only [envLookup, if_neg hk]
      cases hre : envLookup rest k with
      | some v => simp [Option.orElse]
      | none => simp [Option.orElse, envLookup_envSet, hk2]

theorem envLookup_baseInto (m : List (String × String)) (base : List String)
    (k : String) :
    envLookup (baseInto m base) k =
      (baseValue base k).orElse fun _ => envLookup m k := by
  induction base generalizing m with
  | nil => simp [baseInto, baseValue, Option.orElse]
  | cons kv rest ih =>
    simp only [baseInto, baseValue]
    cases hsp : splitEq kv with
    | none =>
      rw [ih]
      cases baseValue rest k <;> simp [Option.orElse]
    | some p =>
      rw [ih]
      cases hbv : baseValue rest k with
      | some v => simp [Option.orElse]
      | none =>
        simp only [Option.orElse, envLookup_envSet]
        by_cases hk : p.1 = k
        · subst hk
          simp
        · have hk2 : ¬ k = p.1 := fun h => hk h.symm
          simp [hk, hk2]

theorem envSet_keys_nodup {m : List (String × String)} (k v : String)
    (h : (m.map Prod.fst).Nodup) : ((envSet m k v).map Prod.fst).Nodup := by
  induction m with
  | nil => simp [envSet]
  | cons p rest ih =>
    simp only [List.map_cons, List.nodup_cons] at h
    by_cases hp : p.1 = k
    · simpa [envSet, hp, List.nodup_cons] using h
    · have hm : ∀ k', k' ∈ (envSet rest k v).map Prod.fst ↔
          k' = k ∨ k' ∈ rest.map Prod.fst := by
        intro k'
        rw [← envLookup_isSome_iff, envLookup_envSet, ← envLookup_isSome_iff]
        by_cases hkk : k' = k <;> simp [hkk]
      simp only [envSet, if_neg hp, List.map_cons, List.nodup_cons]
      refine ⟨fun hmem => ?_, ih h.2⟩
      rcases (hm p.1).mp hmem with h1 | h1
      · exact hp h1
      · exact h.1 h1

theorem baseInto_keys_nodup (m : List (String × String)) (base : List String)
    (h : (m.map Prod.fst).Nodup) : ((baseInto m base).map Prod.fst).Nodup := by
  induction base generalizing m with
  | nil => exact h
  | cons kv rest ih =>
    simp only [baseInto]
    cases splitEq kv with
    | none => exact ih m h
    | some p => exact ih _ (envSet_keys_nodup _ _ h)

theorem applyOverlay_keys_nodup (m ov : List (String × String))
    (h : (m.map Prod.fst).Nodup) : ((applyOverlay m ov).map Prod.fst).Nodup := by
  induction ov generalizing m with
  | nil => exact h
  | cons p rest ih => exact ih _ (envSet_keys_nodup _ _ h)

theorem foldl_overlays_keys_nodup (ovs : List (List (String × String)))
    (m : List (String × String)) (h : (m.map Prod.fst).Nodup) :
    ((ovs.foldl applyOverlay m).map Prod.fst).Nodup := by
  induction ovs generalizing m with
  | nil => exact h
  | cons ov rest ih => exact ih _ (applyOverlay_keys_nodup _ _ h)

theorem mergeMap_keys_nodup (base : List String)
    (ovs : List (List (String × String))) :
    ((mergeMap base ovs).map Prod.fst).Nodup :=
  foldl_overlays_keys_nodup ovs _ (baseInto_keys_nodup [] base (by simp))

theorem mergeMap_three (base : List String) (o1 o2 o3 : List (String × String))
    (k : String) (h1 : (o1.map Prod.fst).Nodup) (h2 : (o2.map Prod.fst).Nodup)
    (h3 : (o3.map Prod.fst).Nodup) :
    envLookup (mergeMap base [o1, o2, o3]) k = specPrecedence base o1 o2 o3 k := by
  unfold mergeMap specPrecedence
  simp only [List.foldl_cons, List.foldl_nil]
  rw [envLookup_applyOverlay _ _ _ h3, envLookup_applyOverlay _ _ _ h2,
      envLookup_applyOverlay _ _ _ h1, envLookup_baseInto]
  cases envLookup o3 k <;> cases envLookup o2 k <;> cases envLookup o1 k <;>
    cases baseValue base k <;> simp [Option.orElse, envLookup]

theorem envLookup_applyOverlay_of_none (m ov : List (String × String)) (k : String)
    (h : envLookup ov k = none) :
    envLookup (applyOverlay m ov) k = envLookup m k := by
  induction ov generalizing m with
  | nil => rfl
  | cons p rest ih =>
    have hp : ¬ p.1 = k := by
      intro hh
      simp [envLookup, hh] at h
    have hr : envLookup rest k = none := by simpa [envLookup, hp] using h
    rw [show applyOverlay m (p :: rest) = applyOverlay (envSet m p.1 p.2) rest from rfl,
        ih _ hr, envLookup_envSet, if_neg (fun hh => hp hh.symm)]

theorem envLookup_foldl_overlays_of_none (ovs : List (List (String × String)))
    (m : List (String × String)) (k : String)
    (h : ∀ ov ∈ ovs, envLookup ov k = none) :
    envLookup (ovs.foldl applyOverlay m) k = envLookup m k := by
  induction ovs generalizing m with
  | nil => rfl
  | cons ov rest ih =>
    simp only [List.foldl_cons]
    rw [ih _ (fun o ho => h o (List.mem_cons_of_mem _ ho)),
        envLookup_applyOverlay_of_none _ _ _ (h ov (List.mem_cons_self _ _))]

theorem envLookup_baseInto_nil (base : List String) (k : String) :
    envLookup (baseInto [] base) k = baseValue base k := by
  rw [envLookup_baseInto]
  cases baseValue base k <;> simp [Option.orElse, envLookup]

theorem mergeMap_lookup_of_overlays_none (base : List String)
    (ovs : List (List (String × String))) (k : String)
    (h : ∀ ov ∈ ovs, envLookup ov k = none) :
    envLookup (mergeMap base ovs) k = baseValue base k := by
  unfold mergeMap
  rw [envLookup_foldl_overlays_of_none ovs _ k h, envLookup_baseInto_nil]

theorem wfKeys_cons_none {kv : String} {rest : List String}
    (h : splitEq kv = none) : wfKeys (kv :: rest) = wfKeys rest := by
  simp [wfKeys, List.filterMap_cons, h]

theorem wfKeys_cons_some {kv k v : String} {rest : List String}
    (h : splitEq kv = some (k, v)) : wfKeys (kv :: rest) = k :: wfKeys rest := by
  simp [wfKeys, List.filterMap_cons, h]

theorem baseValue_cons_none {kv : String} {rest : List String} {k : String}
    (h : splitEq kv = none) : baseValue (kv :: rest) k = baseValue rest k := by
  simp only [baseValue, h]
  cases baseValue rest k <;> rfl

theorem baseValue_cons_some {kv : String} {rest : List String} {k k2 v : String}
    (h : splitEq kv = some (k2, v)) :
    baseValue (kv :: rest) k =
      (baseValue rest k).orElse (fun _ => if k2 = k then some v else none) := by
  simp only [baseValue, h]

theorem baseValue_eq_none_iff (base : List String) (k : String) :
    baseValue base k = none ↔ k ∉ wfKeys base := by
  induction base with
  | nil => simp [baseValue, wfKeys]
  | cons kv rest ih =>
    cases hsp : splitEq kv with
    | none =>
      rw [baseValue_cons_none hsp, wfKeys_cons_none hsp, ih]
    | some p =>
      obtain ⟨pk, pv⟩ := p
      rw [baseValue_cons_some hsp, wfKeys_cons_some hsp]
      cases hbv : baseValue rest k with
      | some v =>
        have hk : k ∈ wfKeys rest := by
          by_contra hc
          rw [← ih] at hc
          rw [hbv] at hc
          cases hc
        simp [Option.orElse, List.mem_cons, hk]
      | none =>
        by_cases hk : pk = k
        · simp [Option.orElse, hk]
        · have hk2 : ¬ k = pk := fun hh => hk hh.symm
          simp [Option.orElse, hk, hk2, List.mem_cons, ← ih, hbv]

theorem baseValue_of_mem {base : List String} {kv k v : String}
    (hmem : kv ∈ base) (hsp : splitEq kv = some (k, v))
    (hnd : (wfKeys base).Nodup) : baseValue base k = some v := by
  induction base with
  | nil => cases hmem
  | cons kv2 rest ih =>
    rcases List.mem_cons.mp hmem with heq | hmem2
    · subst heq
      rw [wfKeys_cons_some hsp] at hnd
      have hk : k ∉ wfKeys rest := (List.nodup_cons.mp hnd).1
      have hnone : baseValue rest k = none := (baseValue_eq_none_iff rest k).mpr hk
      rw [baseValue_cons_some hsp, hnone]
      simp [Option.orElse]
    · have hnd2 : (wfKeys rest).Nodup := by
        cases hsp2 : splitEq kv2 with
        | none => rwa [wfKeys_cons_none hsp2] at hnd
        | some p =>
          obtain ⟨pk, pv⟩ := p
          rw [wfKeys_cons_some hsp2] at hnd
          exact (List.nodup_cons.mp hnd).2
      have hbv := ih hmem2 hnd2
      cases hsp2 : splitEq kv2 with
      | none => rw [baseValue_cons_none hsp2, hbv]
      | some p =>
        obtain ⟨pk, pv⟩ := p
        rw [baseValue_cons_some hsp2, hbv]
        rfl


theorem baseInto_filter (m : List (String × String)) (base : List String) :
    baseInto m (base.filter wellFormedEntry) = baseInto m base := by
  induction base generalizing m with
  | nil => rfl
  | cons kv rest ih =>
    cases hsp : splitEq kv with
    | none =>
      have hw : wellFormedEntry kv = false := by simp [wellFormedEntry, hsp]
      simp only [List.filter_cons, hw, Bool.false_eq_true, if_false, baseInto, hsp]
      exact ih m
    | some p =>
      have hw : wellFormedEntry kv = true := by simp [wellFormedEntry, hsp]
      simp only [List.filter_cons, hw, if_true, baseInto, hsp]
      exact ih _

theorem mergeEnv_filter_base (base : List String)
    (ovs : List (List (String × String))) :
    mergeEnv (base.filter wellFormedEntry) ovs = mergeEnv base ovs := by
  unfold mergeEnv mergeMap
  rw [baseInto_filter]

theorem mem_mergeEnv_of_lookup (base : List String)
    (ovs : List (List (String × String))) (k v : String)
    (h : envLookup (mergeMap base ovs) k = some v) :
    (k ++ "=" ++ v) ∈ mergeEnv base ovs := by
  unfold mergeEnv
  have hk : k ∈ (mergeMap base ovs).map Prod.fst := by
    rw [← envLookup_isSome_iff]
    simp [h]
  have hk2 : k ∈ List.insertionSort strLe ((mergeMap base ovs).map Prod.fst) :=
    ((List.perm_insertionSort strLe _).mem_iff).mpr hk
  exact List.mem_map.mpr ⟨k, hk2, by simp [h]⟩

theorem mergeEnv_det (base base' : List String)
    (ovs ovs' : List (List (String × String)))
    (h : ∀ k, envLookup (mergeMap base ovs) k = envLookup (mergeMap base' ovs') k) :
    mergeEnv base ovs = mergeEnv base' ovs' := by
  unfold mergeEnv
  have hnd1 : (List.insertionSort strLe ((mergeMap base ovs).map Prod.fst)).Nodup :=
    (List.perm_insertionSort strLe _).nodup_iff.mpr (mergeMap_keys_nodup base ovs)
  have hnd2 : (List.insertionSort strLe ((mergeMap base' ovs').map Prod.fst)).Nodup :=
    (List.perm_insertionSort strLe _).nodup_iff.mpr (mergeMap_keys_nodup base' ovs')
  have hkeys : List.insertionSort strLe ((mergeMap base ovs).map Prod.fst)
      = List.insertionSort strLe ((mergeMap base' ovs').map Prod.fst) := by
    refine List.eq_of_perm_of_sorted ?_ (List.sorted_insertionSort _ _)
      (List.sorted_insertionSort _ _)
    refine (List.perm_ext_iff_of_nodup hnd1 hnd2).mpr fun a => ?_
    rw [(List.perm_insertionSort strLe _).mem_iff, (List.perm_insertionSort strLe _).mem_iff,
        ← envLookup_isSome_iff, ← envLookup_isSome_iff, h a]
  rw [hkeys]
  exact List.map_congr_left fun k _ => by rw [h k]

/-! ### Orchestration-loop lemmas -/

theorem processStep_ineligible {opts : Options} {or : Oracles} {wf : Workflow}
    {job : Job} {step : Step} (st : RunState) (h : eligible step = false) :
    processStep opts or wf job step st = st := by
  simp [processStep, h]

theorem processStep_eligible (opts : Options) (or : Oracles) (wf : Workflow)
    (job : Job) (step : Step) (st : RunState) (h : eligible step = true) :
    ∃ r : StepResult,
      (processStep opts or wf job step st).results = st.results ++ [r] ∧
      resultKey r = tripleKey (wf, job, step) := by
  simp only [processStep, h, Bool.not_true, Bool.false_eq_true, if_false]
  cases shouldSkipStep or.matcher step.run opts with
  | some msg => exact ⟨_, rfl, rfl⟩
  | none =>
    by_cases hd : opts.dryRun
    · simp only [hd, if_true]
      exact ⟨_, rfl, rfl⟩
    · simp only [hd, if_false]
      by_cases he : (runStep opts or.sys (or.procs st.spawned) wf job step).isErr
      · simp only [he, if_true]
        exact ⟨_, rfl, rfl⟩
      · simp only [he, if_false]
        exact ⟨_, rfl, rfl⟩

theorem processStep_sumInv {opts : Options} {or : Oracles} {wf : Workflow}
    {job : Job} {step : Step} {st : RunState} (h : sumInv st) :
    sumInv (processStep opts or wf job step st) := by
  obtain ⟨h1, h2⟩ := h
  by_cases he : eligible step
  · simp only [processStep, he, Bool.not_true, Bool.false_eq_true, if_false]
    cases shouldSkipStep or.matcher step.run opts with
    | some msg => exact ⟨by simp [h1]; omega, by simp [h2]⟩
    | none =>
      by_cases hd : opts.dryRun
      · simp only [hd, if_true]
        exact ⟨by simp [h1]; omega, by simp [h2]⟩
      · simp only [hd, if_false]
        by_cases hx : (runStep opts or.sys (or.procs st.spawned) wf job step).isErr
        · simp only [hx, if_true]
          refine ⟨by simp [h1]; omega, ?_⟩
          simp
        · simp only [hx, if_false]
          refine ⟨by simp [h1]; omega, ?_⟩
          simp [h2]
  · rw [processStep_ineligible st (by simpa using he)]
    exact ⟨h1, h2⟩

theorem processStep_totalSteps {opts : Options} {or : Oracles} {wf : Workflow}
    {job : Job} {step : Step} (st : RunState) :
    (processStep opts or wf job step st).summary.totalSteps =
      st.summary.totalSteps + (if eligible step then 1 else 0) := by
  by_cases he : eligible step
  · simp only [processStep, he, Bool.not_true, Bool.false_eq_true, if_false, if_true]
    cases shouldSkipStep or.matcher step.run opts with
    | some msg => rfl
    | none =>
      by_cases hd : opts.dryRun
      · simp [hd]
      · simp only [hd, if_false]
        by_cases hx : (runStep opts or.sys (or.procs st.spawned) wf job step).isErr
        · simp [hx]
        · simp [hx]
  · rw [processStep_ineligible st (by simpa using he)]
    simp [he]

theorem processStep_exit_mono {opts : Options} {or : Oracles} {wf : Workflow}
    {job : Job} {step : Step} {st : RunState} (h : st.summary.exitCode = 1) :
    (processStep opts or wf job step st).summary.exitCode = 1 := by
  by_cases he : eligible step
  · simp only [processStep, he, Bool.not_true, Bool.false_eq_true, if_false]
    cases shouldSkipStep or.matcher step.run opts with
    | some msg => exact h
    | none =>
      by_cases hd : opts.dryRun
      · simp [hd, h]
      · simp only [hd, if_false]
        by_cases hx : (runStep opts or.sys (or.procs st.spawned) wf job step).isErr
        · simp [hx]
        · simp [hx, h]
  · rw [processStep_ineligible st (by simpa using he)]
    exact h

theorem stepLoop_sumInv {opts : Options} {or : Oracles} {wf : Workflow} {job : Job}
    (steps : List Step) {st : RunState} (h : sumInv st) :
    sumInv (stepLoop opts or wf job steps st) := by
  induction steps generalizing st with
  | nil => exact h
  | cons s rest ih => exact ih (processStep_sumInv h)

theorem jobLoop_sumInv {opts : Options} {or : Oracles} {wf : Workflow}
    (jobs : List Job) {st : RunState} (h : sumInv st) :
    sumInv (jobLoop opts or wf jobs st) := by
  induction jobs generalizing st with
  | nil => exact h
  | cons j rest ih => exact ih (stepLoop_sumInv j.steps h)

theorem wfLoop_sumInv {opts : Options} {or : Oracles} (wfs : List Workflow)
    {st : RunState} (h : sumInv st) : sumInv (wfLoop opts or wfs st) := by
  induction wfs generalizing st with
  | nil => exact h
  | cons wf rest ih =>
    refine ih ?_
    refine jobLoop_sumInv wf.jobs ?_
    exact ⟨h.1, h.2⟩

theorem stepLoop_exit_mono {opts : Options} {or : Oracles} {wf : Workflow} {job : Job}
    (steps : List Step) {st : RunState} (h : st.summary.exitCode = 1) :
    (stepLoop opts or wf job steps st).summary.exitCode = 1 := by
  induction steps generalizing st with
  | nil => exact h
  | cons s rest ih => exact ih (processStep_exit_mono h)

theorem stepLoop_totalSteps {opts : Options} {or : Oracles} {wf : Workflow} {job : Job}
    (steps : List Step) (st : RunState) :
    (stepLoop opts or wf job steps st).summary.totalSteps =
      st.summary.totalSteps + (steps.filter eligible).length := by
  induction steps generalizing st with
  | nil => simp [stepLoop]
  | cons s rest ih =>
    rw [stepLoop, ih, processStep_totalSteps]
    by_cases he : eligible s <;> simp [he, List.filter_cons] <;> omega

theorem jobLoop_totalSteps {opts : Options} {or : Oracles} {wf : Workflow}
    (jobs : List Job) (st : RunState) :
    (jobLoop opts or wf jobs st).summary.totalSteps =
      st.summary.totalSteps +
        (jobs.flatMap fun j => j.steps.filter eligible).length := by
  induction jobs generalizing st with
  | nil => simp [jobLoop]
  | cons j rest ih =>
    rw [jobLoop, ih, stepLoop_totalSteps]
    simp [List.flatMap_cons]
    omega

theorem wfLoop_totalSteps {opts : Options} {or : Oracles} (wfs : List Workflow)
    (st : RunState) :
    (wfLoop opts or wfs st).summary.totalSteps =
      st.summary.totalSteps +
        (wfs.flatMap fun wf => wf.jobs.flatMap fun j => j.steps.filter eligible).length := by
  induction wfs generalizing st with
  | nil => simp [wfLoop]
  | cons wf rest ih =>
    rw [wfLoop, ih, jobLoop_totalSteps]
    simp [List.flatMap_cons]
    omega

theorem eligibleTriples_length (wfs : List Workflow) :
    (eligibleTriples wfs).length =
      (wfs.flatMap fun wf => wf.jobs.flatMap fun j => j.steps.filter eligible).length := by
  unfold eligibleTriples
  induction wfs with
  | nil => rfl
  | cons wf rest ih =>
    simp only [List.flatMap_cons, List.length_append, ih]
    congr 1
    induction wf.jobs with
    | nil => rfl
    | cons j jr ihj =>
      simp only [List.flatMap_cons, List.length_append, ihj, List.length_map]

theorem stepLoop_results_keys {opts : Options} {or : Oracles} {wf : Workflow} {job : Job}
    (steps : List Step) (st : RunState) :
    (stepLoop opts or wf job steps st).results.map resultKey =
      st.results.map resultKey ++
        (steps.filter eligible).map (fun s => tripleKey (wf, job, s)) := by
  induction steps generalizing st with
  | nil => simp [stepLoop]
  | cons s rest ih =>
    rw [stepLoop, ih]
    by_cases he : eligible s
    · obtain ⟨r, hr, hk⟩ := processStep_eligible opts or wf job s st he
      simp [List.filter_cons, he, hr, hk]
    · rw [processStep_ineligible st (by simpa using he)]
      simp [List.filter_cons, he]

theorem jobLoop_results_keys {opts : Options} {or : Oracles} {wf : Workflow}
    (jobs : List Job) (st : RunState) :
    (jobLoop opts or wf jobs st).results.map resultKey =
      st.results.map resultKey ++
        (jobs.flatMap fun j =>
          (j.steps.filter eligible).map fun s => tripleKey (wf, j, s)) := by
  induction jobs generalizing st with
  | nil => simp [jobLoop]
  | cons j rest ih =>
    rw [jobLoop, ih, stepLoop_results_keys]
    simp [List.flatMap_cons]

theorem wfLoop_results_keys {opts : Options} {or : Oracles} (wfs : List Workflow)
    (st : RunState) :
    (wfLoop opts or wfs st).results.map resultKey =
      st.results.map resultKey ++ (eligibleTriples wfs).map tripleKey := by
  induction wfs generalizing st with
  | nil => simp [wfLoop, eligibleTriples]
  | cons wf rest ih =>
    rw [wfLoop, ih, jobLoop_results_keys]
    simp only [eligibleTriples, List.flatMap_cons, List.map_append, List.append_assoc,
      List.map_flatMap, List.map_map]
    rfl

/-! ### Tail truncation and message lemmas -/

theorem dropWhile_eq_self_of_none {α : Type} (p : α → Bool) (l : List α)
    (h : ∀ a ∈ l, p a = false) : List.dropWhile p l = l := by
  cases l with
  | nil => rfl
  | cons a as => simp [List.dropWhile, h a (by simp)]

theorem goQuoteChar_no_newline (c : Char) : '\n' ∉ goQuoteChar c := by
  unfold goQuoteChar
  split_ifs with h1 h2 h3 h4
  · decide
  · decide
  · decide
  · decide
  · simpa using fun hh : '\n' = c => h3 hh.symm

theorem goQuote_no_newline (s : String) : '\n' ∉ (goQuote s).toList := by
  show '\n' ∉ '"' :: s.toList.flatMap goQuoteChar ++ ['"']
  intro hmem
  rcases List.mem_cons.mp hmem with h | h
  · cases h
  · rcases List.mem_append.mp h with h | h
    · obtain ⟨c, _, hc⟩ := List.mem_flatMap.mp h
      exact goQuoteChar_no_newline c hc
    · simp at h

theorem goQuote_ne_empty_data (s : String) : (goQuote s).toList ≠ [] := by
  show '"' :: s.toList.flatMap goQuoteChar ++ ['"'] ≠ []
  simp

theorem no_newline_append {a b : List Char} (ha : '\n' ∉ a) (hb : '\n' ∉ b) :
    '\n' ∉ a ++ b := by
  intro h
  rcases List.mem_append.mp h with h | h
  · exact ha h
  · exact hb h

theorem string_append_data (a b : String) : (a ++ b).toList = a.toList ++ b.toList :=
  String.data_append a b

theorem splitNL_no_newline (cs : List Char) (h : '\n' ∉ cs) : splitNL cs = [cs] := by
  induction cs with
  | nil => rfl
  | cons c rest ih =>
    have hc : ¬ c = '\n' := fun hh => h (hh ▸ List.mem_cons_self c rest)
    have hr : '\n' ∉ rest := fun hh => h (List.mem_cons_of_mem c hh)
    simp [splitNL, hc, ih hr]

theorem trimRightNL_no_newline (cs : List Char) (h : '\n' ∉ cs) :
    trimRightNL cs = cs := by
  unfold trimRightNL
  rw [dropWhile_eq_self_of_none _ _ (fun a ha => ?_), List.reverse_reverse]
  have : a ∈ cs := List.mem_reverse.mp ha
  simp only [decide_eq_false_iff_not]
  exact fun hh => h (hh ▸ this)

theorem string_mk_toList (s : String) : String.mk s.toList = s := rfl

theorem tailLines_single_line (msg : String) (T : Nat) (h1 : msg ≠ "")
    (h2 : '\n' ∉ msg.toList) (hT : 0 < T) : tailLines msg T = msg := by
  unfold tailLines
  rw [if_neg h1]
  have ht : trimRightNL msg.toList = msg.toList := trimRightNL_no_newline _ h2
  have hs : splitNL msg.toList = [msg.toList] := splitNL_no_newline _ h2
  rw [ht, hs, if_pos (by simpa using hT)]
  exact string_mk_toList msg

theorem splitNL_append_line (g t : List Char) (h : '\n' ∉ g) :
    splitNL (g ++ '\n' :: t) = g :: splitNL t := by
  induction g with
  | nil => simp [splitNL]
  | cons c rest ih =>
    have hc : ¬ c = '\n' := fun hh => h (hh ▸ List.mem_cons_self c rest)
    have hr : '\n' ∉ rest := fun hh => h (List.mem_cons_of_mem c hh)
    rw [List.cons_append]
    simp only [splitNL, hc, if_false]
    rw [ih hr]

theorem splitNL_joinNL (ls : List (List Char)) (hne : ls ≠ [])
    (hnl : ∀ l ∈ ls, '\n' ∉ l) : splitNL (joinNL ls) = ls := by
  induction ls with
  | nil => exact absurd rfl hne
  | cons g rest ih =>
    cases rest with
    | nil =>
      show splitNL (joinNL [g]) = [g]
      exact splitNL_no_newline g (hnl g (by simp))
    | cons g2 rest2 =>
      show splitNL (g ++ '\n' :: joinNL (g2 :: rest2)) = g :: g2 :: rest2
      rw [splitNL_append_line _ _ (hnl g (by simp)),
        ih (by simp) (fun l hl => hnl l (List.mem_cons_of_mem g hl))]

theorem joinNL_ne_nil (ls : List (List Char)) (hne : ls ≠ [])
    (hlast : ls.getLast? ≠ some []) : joinNL ls ≠ [] := by
  cases ls with
  | nil => exact absurd rfl hne
  | cons g rest =>
    cases rest with
    | nil =>
      have : g ≠ [] := by simpa [List.getLast?] using hlast
      simpa [joinNL] using this
    | cons g2 rest2 =>
      show g ++ '\n' :: joinNL (g2 :: rest2) ≠ []
      simp

theorem dropWhile_replicate_append (p : Char → Bool) (c : Char) (m : Nat)
    (t : List Char) (h : p c = true) :
    List.dropWhile p (List.replicate m c ++ t) = List.dropWhile p t := by
  induction m with
  | zero => rfl
  | succ n ih => simp [List.replicate_succ, List.dropWhile, h, ih]

theorem dropWhile_nl_joinNL (ls : List (List Char))
    (hnl : ∀ l ∈ ls, '\n' ∉ l) (hlast : ls.getLast? ≠ some []) :
    List.dropWhile (· = '\n') (joinNL ls).reverse = (joinNL ls).reverse := by
  induction ls with
  | nil => rfl
  | cons g rest ih =>
    cases rest with
    | nil =>
      show List.dropWhile (· = '\n') (joinNL [g]).reverse = (joinNL [g]).reverse
      refine dropWhile_eq_self_of_none _ _ fun a ha => ?_
      have hmem : a ∈ g := List.mem_reverse.mp (by simpa [joinNL] using ha)
      simp only [decide_eq_false_iff_not]
      exact fun hh => hnl g (by simp) (hh ▸ hmem)
    | cons g2 rest2 =>
      have hlast2 : (g2 :: rest2).getLast? ≠ some [] := by
        rwa [List.getLast?_cons_cons] at hlast
      have hnl2 : ∀ l ∈ g2 :: rest2, '\n' ∉ l :=
        fun l hl => hnl l (List.mem_cons_of_mem g hl)
      have ihr := ih hnl2 hlast2
      have hJ : joinNL (g :: g2 :: rest2) = g ++ '\n' :: joinNL (g2 :: rest2) := rfl
      have hrev : (g ++ '\n' :: joinNL (g2 :: rest2)).reverse =
          (joinNL (g2 :: rest2)).reverse ++ ('\n' :: g.reverse) := by
        rw [List.reverse_append, List.reverse_cons, List.append_assoc]
        simp
      rw [hJ, hrev, List.dropWhile_append, ihr]
      have hne : (joinNL (g2 :: rest2)).reverse ≠ [] := by
        simpa using joinNL_ne_nil (g2 :: rest2) (by simp) hlast2
      simp [List.isEmpty_iff, hne]

theorem trimRightNL_joinNL (ls : List (List Char)) (m : Nat)
    (hnl : ∀ l ∈ ls, '\n' ∉ l) (hlast : ls.getLast? ≠ some []) :
    trimRightNL (joinNL ls ++ List.replicate m '\n') = joinNL ls := by
  unfold trimRightNL
  rw [List.reverse_append, List.reverse_replicate,
    dropWhile_replicate_append _ _ _ _ (by simp), dropWhile_nl_joinNL ls hnl hlast,
    List.reverse_reverse]

theorem tailLines_lastT (ls : List (List Char)) (m T : Nat) (hne : ls ≠ [])
    (hnl : ∀ l ∈ ls, '\n' ∉ l) (hlast : ls.getLast? ≠ some [])
    (hT : T < ls.length) :
    tailLines (String.mk (joinNL ls ++ List.replicate m '\n')) T =
      String.mk (joinNL (ls.drop (ls.length - T))) := by
  unfold tailLines
  have hjoin : joinNL ls ≠ [] := joinNL_ne_nil ls hne hlast
  have hne2 : String.mk (joinNL ls ++ List.replicate m '\n') ≠ "" := by
    intro hh
    have : joinNL ls ++ List.replicate m '\n' = [] := congrArg String.toList hh
    exact hjoin (List.append_eq_nil.mp this).1
  rw [if_neg hne2]
  have hdata : (String.mk (joinNL ls ++ List.replicate m '\n')).toList =
      joinNL ls ++ List.replicate m '\n' := rfl
  rw [hdata, trimRightNL_joinNL ls m hnl hlast, splitNL_joinNL ls hne hnl,
    if_neg (by omega)]

/-! ### Working-directory and `runStep` lemmas -/

theorem resolveWD_all_empty (sys : Sys) (root : String) (wf : Workflow) (job : Job)
    (step : Step) (h1 : goTrimSpace step.workingDirectory = "")
    (h2 : goTrimSpace job.defaults.workingDirectory = "")
    (h3 : goTrimSpace wf.defaults.workingDirectory = "") :
    resolveWorkingDirectory sys root wf job step =
      (if root = "" then
        match sys.getwd with
        | some d => .ok d
        | none => .error "determine working directory: getwd failed"
       else .ok root) := by
  simp [resolveWorkingDirectory, resolveWDFrom, h1, h2, h3]

theorem resolveWDFrom_error_msg (sys : Sys) (root : String)
    (cands : List String) (msg : String)
    (h : resolveWDFrom sys root cands = .error msg) : msg ≠ "" ∧ '\n' ∉ msg.toList := by
  induction cands with
  | nil =>
    simp only [resolveWDFrom] at h
    by_cases hr : root = ""
    · rw [if_pos hr] at h
      cases hg : sys.getwd with
      | some d => rw [hg] at h; cases h
      | none =>
        rw [hg] at h
        cases h
        exact ⟨by decide, by decide⟩
    · rw [if_neg hr] at h
      cases h
  | cons cand rest ih =>
    simp only [resolveWDFrom] at h
    by_cases hc : goTrimSpace cand = ""
    · rw [if_pos hc] at h
      exact ih h
    · rw [if_neg hc] at h
      set c2 := if isAbsPath (goTrimSpace cand) then goTrimSpace cand
        else joinPath root (goTrimSpace cand) with hc2
      have hq1 : '\n' ∉ (goQuote c2).toList := goQuote_no_newline c2
      cases hst : sys.stat c2 with
      | missing =>
        rw [hst] at h
        cases h
        constructor
        · intro hh
          have := congrArg String.toList hh
          rw [string_append_data, string_append_data] at this
          simp at this
        · rw [string_append_data, string_append_data]
          refine no_newline_append (no_newline_append ?_ hq1) ?_
          · decide
          · decide
      | statErr =>
        rw [hst] at h
        cases h
        constructor
        · intro hh
          have := congrArg String.toList hh
          rw [string_append_data, string_append_data] at this
          simp at this
        · rw [string_append_data, string_append_data]
          refine no_newline_append (no_newline_append ?_ hq1) ?_
          · decide
          · decide
      | file =>
        rw [hst] at h
        cases h
        constructor
        · intro hh
          have := congrArg String.toList hh
          rw [string_append_data, string_append_data] at this
          simp at this
        · rw [string_append_data, string_append_data]
          refine no_newline_append (no_newline_append ?_ hq1) ?_
          · decide
          · decide
      | dir => rw [hst] at h; cases h

theorem resolveWD_error_msg (sys : Sys) (root : String) (wf : Workflow) (job : Job)
    (step : Step) (msg : String)
    (h : resolveWorkingDirectory sys root wf job step = .error msg) :
    msg ≠ "" ∧ '\n' ∉ msg.toList :=
  resolveWDFrom_error_msg sys root _ msg h

theorem runStep_resolveErr (opts : Options) (sys : Sys)
    (proc : List String → String → List String → ProcOutcome)
    (wf : Workflow) (job : Job) (step : Step) (msg : String)
    (h : resolveWorkingDirectory sys opts.root wf job step = .error msg) :
    runStep opts sys proc wf job step =
      { stdout := "", stderr := msg, exitCode := 127, isErr := true,
        spawned := false, echoOut := "", echoErr := "" } := by
  simp only [runStep, buildCommand, h]

theorem buildCommand_eq (sys : Sys) (env : List String) (step : Step) (job : Job)
    (wf : Workflow) :
    buildCommand sys env step job wf =
      .ok (commandArgs sys env (shellSpecOf step job wf) step.run) := rfl

theorem runStep_spawn (opts : Options) (sys : Sys)
    (proc : List String → String → List String → ProcOutcome)
    (wf : Workflow) (job : Job) (step : Step) (dir : String)
    (h : resolveWorkingDirectory sys opts.root wf job step = .ok dir) :
    runStep opts sys proc wf job step =
      (match proc (commandArgs sys (mergeEnv opts.env [wf.env, job.env, step.env])
          (shellSpecOf step job wf) step.run) dir
          (mergeEnv opts.env [wf.env, job.env, step.env]) with
       | .ok o e =>
         { stdout := o, stderr := simplifyError e, exitCode := 0, isErr := false,
           spawned := true, echoOut := if opts.verbose then o else "",
           echoErr := if opts.verbose then e else "" }
       | .fail c o e =>
         { stdout := o, stderr := simplifyError e, exitCode := c, isErr := true,
           spawned := true, echoOut := if opts.verbose then o else "",
           echoErr := if opts.verbose then e else "" }) := by
  simp only [runStep, buildCommand_eq, h]

/-! ### Execution-branch and dry-run lemmas -/

theorem processStep_exec_fail (opts : Options) (or : Oracles) (wf : Workflow)
    (job : Job) (step : Step) (st : RunState)
    (he : eligible step = true)
    (hs : shouldSkipStep or.matcher step.run opts = none)
    (hd : opts.dryRun = false)
    (hx : (runStep opts or.sys (or.procs st.spawned) wf job step).isErr = true) :
    processStep opts or wf job step st =
      { results := st.results ++
          [{ initResult opts wf job step with
             status := "failed",
             stdout := tailLines (runStep opts or.sys (or.procs st.spawned) wf job step).stdout
               opts.tailLines,
             stderr := tailLines (runStep opts or.sys (or.procs st.spawned) wf job step).stderr
               opts.tailLines,
             exitCode := (runStep opts or.sys (or.procs st.spawned) wf job step).exitCode,
             duration := or.elapsed st.attempts,
             durationMS := or.elapsed st.attempts / 1000000 }],
        summary := { st.summary with
          totalSteps := st.summary.totalSteps + 1,
          failed := st.summary.failed + 1,
          duration := st.summary.duration + or.elapsed st.attempts,
          exitCode := 1 },
        attempts := st.attempts + 1,
        spawned := st.spawned +
          (if (runStep opts or.sys (or.procs st.spawned) wf job step).spawned then 1
           else 0) } := by
  simp only [processStep, he, Bool.not_true, Bool.false_eq_true, if_false, hs, hd, hx,
    if_true]

theorem processStep_exec_pass (opts : Options) (or : Oracles) (wf : Workflow)
    (job : Job) (step : Step) (st : RunState)
    (he : eligible step = true)
    (hs : shouldSkipStep or.matcher step.run opts = none)
    (hd : opts.dryRun = false)
    (hx : (runStep opts or.sys (or.procs st.spawned) wf job step).isErr = false) :
    processStep opts or wf job step st =
      { results := st.results ++
          [{ initResult opts wf job step with
             status := "passed",
             stdout := (runStep opts or.sys (or.procs st.spawned) wf job step).stdout,
             stderr := (runStep opts or.sys (or.procs st.spawned) wf job step).stderr,
             exitCode := (runStep opts or.sys (or.procs st.spawned) wf job step).exitCode,
             duration := or.elapsed st.attempts,
             durationMS := or.elapsed st.attempts / 1000000 }],
        summary := { st.summary with
          totalSteps := st.summary.totalSteps + 1,
          passed := st.summary.passed + 1,
          duration := st.summary.duration + or.elapsed st.attempts },
        attempts := st.attempts + 1,
        spawned := st.spawned +
          (if (runStep opts or.sys (or.procs st.spawned) wf job step).spawned then 1
           else 0) } := by
  simp only [processStep, he, Bool.not_true, Bool.false_eq_true, if_false, hs, hd, hx,
    if_true]
  rfl

theorem processStep_skipmsg (opts : Options) (or : Oracles) (wf : Workflow)
    (job : Job) (step : Step) (st : RunState) (msg : String)
    (he : eligible step = true)
    (hs : shouldSkipStep or.matcher step.run opts = some msg) :
    processStep opts or wf job step st =
      { results := st.results ++
          [{ initResult opts wf job step with status := "skipped", stderr := msg }],
        summary := { st.summary with
          totalSteps := st.summary.totalSteps + 1,
          skipped := st.summary.skipped + 1 },
        attempts := st.attempts, spawned := st.spawned } := by
  simp only [processStep, he, Bool.not_true, Bool.false_eq_true, if_false, hs]

theorem processStep_dry_state (opts : Options) (or : Oracles) (wf : Workflow)
    (job : Job) (step : Step) (st : RunState) (hd : opts.dryRun = true) :
    (processStep opts or wf job step st).attempts = st.attempts ∧
    (processStep opts or wf job step st).spawned = st.spawned := by
  by_cases he : eligible step
  · simp only [processStep, he, Bool.not_true, Bool.false_eq_true, if_false]
    cases shouldSkipStep or.matcher step.run opts with
    | some msg => exact ⟨rfl, rfl⟩
    | none => simp [hd]
  · rw [processStep_ineligible st (by simpa using he)]
    exact ⟨rfl, rfl⟩

theorem processStep_dry_results (opts : Options) (or : Oracles) (wf : Workflow)
    (job : Job) (step : Step) (st : RunState) (hd : opts.dryRun = true) :
    ∀ r ∈ (processStep opts or wf job step st).results,
      r ∈ st.results ∨
      (r.status = "skipped" ∧ r.dryRun = true ∧ r.duration = 0 ∧ r.durationMS = 0) := by
  by_cases he : eligible step
  · simp only [processStep, he, Bool.not_true, Bool.false_eq_true, if_false]
    cases shouldSkipStep or.matcher step.run opts with
    | some msg =>
      intro r hr
      rcases List.mem_append.mp hr with h | h
      · exact Or.inl h
      · right
        have : r = { initResult opts wf job step with status := "skipped", stderr := msg } := by
          simpa using h
        subst this
        exact ⟨rfl, by simp [initResult, hd], rfl, rfl⟩
    | none =>
      simp only [hd, if_true]
      intro r hr
      rcases List.mem_append.mp hr with h | h
      · exact Or.inl h
      · right
        have : r = { initResult opts wf job step with status := "skipped" } := by
          simpa using h
        subst this
        exact ⟨rfl, by simp [initResult, hd], rfl, rfl⟩
  · rw [processStep_ineligible st (by simpa using he)]
    exact fun r hr => Or.inl hr

theorem stepLoop_dry_state (opts : Options) (or : Oracles) (wf : Workflow) (job : Job)
    (steps : List Step) (st : RunState) (hd : opts.dryRun = true) :
    (stepLoop opts or wf job steps st).attempts = st.attempts ∧
    (stepLoop opts or wf job steps st).spawned = st.spawned := by
  induction steps generalizing st with
  | nil => exact ⟨rfl, rfl⟩
  | cons s rest ih =>
    rw [stepLoop]
    obtain ⟨h1, h2⟩ := processStep_dry_state opts or wf job s st hd
    obtain ⟨h3, h4⟩ := ih (processStep opts or wf job s st)
    exact ⟨h3.trans h1, h4.trans h2⟩

theorem stepLoop_dry_results (opts : Options) (or : Oracles) (wf : Workflow) (job : Job)
    (steps : List Step) (st : RunState) (hd : opts.dryRun = true) :
    ∀ r ∈ (stepLoop opts or wf job steps st).results,
      r ∈ st.results ∨
      (r.status = "skipped" ∧ r.dryRun = true ∧ r.duration = 0 ∧ r.durationMS = 0) := by
  induction steps generalizing st with
  | nil => exact fun r hr => Or.inl hr
  | cons s rest ih =>
    rw [stepLoop]
    intro r hr
    rcases ih (processStep opts or wf job s st) r hr with h | h
    · exact processStep_dry_results opts or wf job s st hd r h
    · exact Or.inr h

theorem jobLoop_dry_state (opts : Options) (or : Oracles) (wf : Workflow)
    (jobs : List Job) (st : RunState) (hd : opts.dryRun = true) :
    (jobLoop opts or wf jobs st).attempts = st.attempts ∧
    (jobLoop opts or wf jobs st).spawned = st.spawned := by
  induction jobs generalizing st with
  | nil => exact ⟨rfl, rfl⟩
  | cons j rest ih =>
    rw [jobLoop]
    obtain ⟨h1, h2⟩ := stepLoop_dry_state opts or wf j j.steps st hd
    obtain ⟨h3, h4⟩ := ih (stepLoop opts or wf j j.steps st)
    exact ⟨h3.trans h1, h4.trans h2⟩

theorem jobLoop_dry_results (opts : Options) (or : Oracles) (wf : Workflow)
    (jobs : List Job) (st : RunState) (hd : opts.dryRun = true) :
    ∀ r ∈ (jobLoop opts or wf jobs st).results,
      r ∈ st.results ∨
      (r.status = "skipped" ∧ r.dryRun = true ∧ r.duration = 0 ∧ r.durationMS = 0) := by
  induction jobs generalizing st with
  | nil => exact fun r hr => Or.inl hr
  | cons j rest ih =>
    rw [jobLoop]
    intro r hr
    rcases ih (stepLoop opts or wf j j.steps st) r hr with h | h
    · exact stepLoop_dry_results opts or wf j j.steps st hd r h
    · exact Or.inr h

theorem wfLoop_dry_state (opts : Options) (or : Oracles) (wfs : List Workflow)
    (st : RunState) (hd : opts.dryRun = true) :
    (wfLoop opts or wfs st).attempts = st.attempts ∧
    (wfLoop opts or wfs st).spawned = st.spawned := by
  induction wfs generalizing st with
  | nil => exact ⟨rfl, rfl⟩
  | cons wf rest ih =>
    rw [wfLoop]
    obtain ⟨h1, h2⟩ := jobLoop_dry_state opts or wf wf.jobs _ hd
    obtain ⟨h3, h4⟩ := ih (jobLoop opts or wf wf.jobs _)
    exact ⟨h3.trans h1, h4.trans h2⟩

theorem wfLoop_dry_results (opts : Options) (or : Oracles) (wfs : List Workflow)
    (st : RunState) (hd : opts.dryRun = true) :
    ∀ r ∈ (wfLoop opts or wfs st).results,
      r ∈ st.results ∨
      (r.status = "skipped" ∧ r.dryRun = true ∧ r.duration = 0 ∧ r.durationMS = 0) := by
  induction wfs generalizing st with
  | nil => exact fun r hr => Or.inl hr
  | cons wf rest ih =>
    rw [wfLoop]
    intro r hr
    rcases ih (jobLoop opts or wf wf.jobs
        { st with summary := { st.summary with
            totalJobs := st.summary.totalJobs + wf.jobs.length } }) r hr with h | h
    · exact jobLoop_dry_results opts or wf wf.jobs
        { st with summary := { st.summary with
            totalJobs := st.summary.totalJobs + wf.jobs.length } } hd r h
    · exact Or.inr h

/-! ### Privileged-gate lemmas -/

theorem shouldSkipStep_allow (m : String → String → Option Bool) (script : String)
    (opts : Options) (h : opts.allowPrivileged = true) :
    shouldSkipStep m script opts = none := by
  simp [shouldSkipStep, h]

theorem firstSkip_compile_err (m : String → String → Option Bool) (script p : String)
    (rest : List String) (h : m p script = none) :
    firstSkip m script (p :: rest) = firstSkip m script rest := by
  by_cases hp : p = "" <;> simp [firstSkip, hp, h]

theorem firstSkip_first_match (m : String → String → Option Bool) (script p : String)
    (rest : List String) (hp : p ≠ "") (h : m p script = some true) :
    firstSkip m script (p :: rest) = some (skipMessage p) := by
  simp [firstSkip, hp, h]

theorem firstSkip_no_match (m : String → String → Option Bool) (script p : String)
    (rest : List String) (h : m p script = some false) :
    firstSkip m script (p :: rest) = firstSkip m script rest := by
  by_cases hp : p = "" <;> simp [firstSkip, hp, h]

theorem matchStartSudo_of_head (script : String) (t : List Char)
    (h : (lowerStr script).toList = "sudo ".toList ++ t) :
    matchStartSudo script = true := by
  unfold matchStartSudo
  rw [h]
  simp [List.isPrefixOf, wordChar]

theorem shouldSkip_sudo_head (script : String) (opts : Options) (t : List Char)
    (ha : opts.allowPrivileged = false)
    (hp : opts.privilegedPatterns = DefaultPrivilegedPatterns)
    (h : (lowerStr script).toList = "sudo ".toList ++ t) :
    shouldSkipStep goMatch script opts = some (skipMessage "(?i)^sudo\\b") := by
  have hm : matchStartSudo script = true := matchStartSudo_of_head script t h
  rw [shouldSkipStep, if_neg (by simp [ha]), hp, DefaultPrivilegedPatterns]
  refine firstSkip_first_match goMatch script _ _ (by decide) ?_
  rw [show goMatch "(?i)^sudo\\b" script = some (matchStartSudo script) from rfl, hm]

theorem processStep_executes (opts : Options) (or : Oracles) (wf : Workflow)
    (job : Job) (step : Step) (st : RunState)
    (he : eligible step = true) (ha : opts.allowPrivileged = true)
    (hd : opts.dryRun = false) :
    (processStep opts or wf job step st).attempts = st.attempts + 1 ∧
    ∃ r, (processStep opts or wf job step st).results = st.results ++ [r] ∧
      (r.status = "passed" ∨ r.status = "failed") := by
  have hs : shouldSkipStep or.matcher step.run opts = none :=
    shouldSkipStep_allow or.matcher step.run opts ha
  by_cases hx : (runStep opts or.sys (or.procs st.spawned) wf job step).isErr
  · rw [processStep_exec_fail opts or wf job step st he hs (by simpa using hd) hx]
    exact ⟨rfl, _, rfl, Or.inr rfl⟩
  · rw [processStep_exec_pass opts or wf job step st he hs (by simpa using hd)
      (by simpa using hx)]
    exact ⟨rfl, _, rfl, Or.inl rfl⟩

/-! ### Streaming/batch equivalence lemmas -/

theorem sProcessStep_ok (opts : Options) (rd : Renderer) (or : Oracles)
    (wf : Workflow) (job : Job) (step : Step) (s : SState) (hrd : rendererOk rd) :
    ∃ ev2, sProcessStep opts rd or wf job step s =
      .ok { st := processStep opts or wf job step s.st, events := ev2 } := by
  obtain ⟨h1, h2, _, _⟩ := hrd
  by_cases he : eligible step
  · simp only [sProcessStep, processStep, he, Bool.not_true, Bool.false_eq_true,
      if_false, h1, h2]
    cases shouldSkipStep or.matcher step.run opts with
    | some msg => exact ⟨_, rfl⟩
    | none =>
      by_cases hd : opts.dryRun
      · simp only [hd, if_true]
        exact ⟨_, rfl⟩
      · simp only [hd, if_false]
        by_cases hx : (runStep opts or.sys (or.procs s.st.spawned) wf job step).isErr
        · simp only [hx, if_true]
          exact ⟨_, rfl⟩
        · simp only [hx, if_false]
          exact ⟨_, rfl⟩
  · have he2 : eligible step = false := by simpa using he
    rw [processStep_ineligible s.st he2]
    simp only [sProcessStep, he2, Bool.not_false, if_true]
    exact ⟨s.events, rfl⟩

theorem sStepLoop_ok (opts : Options) (rd : Renderer) (or : Oracles)
    (wf : Workflow) (job : Job) (steps : List Step) (s : SState)
    (hrd : rendererOk rd) :
    ∃ ev2, sStepLoop opts rd or wf job steps s =
      .ok { st := stepLoop opts or wf job steps s.st, events := ev2 } := by
  induction steps generalizing s with
  | nil => exact ⟨s.events, rfl⟩
  | cons step rest ih =>
    obtain ⟨ev, hev⟩ := sProcessStep_ok opts rd or wf job step s hrd
    obtain ⟨ev2, hev2⟩ := ih { st := processStep opts or wf job step s.st, events := ev }
    refine ⟨ev2, ?_⟩
    rw [sStepLoop, hev, stepLoop]
    exact hev2

theorem sJobLoop_ok (opts : Options) (rd : Renderer) (or : Oracles)
    (wf : Workflow) (jobs : List Job) (s : SState) (hrd : rendererOk rd) :
    ∃ ev2, sJobLoop opts rd or wf jobs s =
      .ok { st := jobLoop opts or wf jobs s.st, events := ev2 } := by
  induction jobs generalizing s with
  | nil => exact ⟨s.events, rfl⟩
  | cons j rest ih =>
    obtain ⟨ev, hev⟩ := sStepLoop_ok opts rd or wf j j.steps
      { s with events := s.events ++ [REvent.startJob j.name] } hrd
    obtain ⟨ev2, hev2⟩ := ih
      { st := stepLoop opts or wf j j.steps s.st, events := ev ++ [REvent.completeJob] }
    refine ⟨ev2, ?_⟩
    rw [sJobLoop, hev, hrd.2.2.1, jobLoop]
    exact hev2

theorem sWfLoop_ok (opts : Options) (rd : Renderer) (or : Oracles)
    (wfs : List Workflow) (s : SState) (hrd : rendererOk rd) :
    ∃ ev2, sWfLoop opts rd or wfs s =
      .ok { st := wfLoop opts or wfs s.st, events := ev2 } := by
  induction wfs generalizing s with
  | nil => exact ⟨s.events, rfl⟩
  | cons wf rest ih =>
    obtain ⟨ev, hev⟩ := sJobLoop_ok opts rd or wf wf.jobs
      { s with st := { s.st with summary := { s.st.summary with
          totalJobs := s.st.summary.totalJobs + wf.jobs.length } } } hrd
    obtain ⟨ev2, hev2⟩ := ih
      { st := jobLoop opts or wf wf.jobs
          { s.st with summary := { s.st.summary with
            totalJobs := s.st.summary.totalJobs + wf.jobs.length } },
        events := ev }
    refine ⟨ev2, ?_⟩
    rw [sWfLoop, hev, wfLoop]
    exact hev2

theorem runStreaming_eq_runBatch (opts : Options) (rd : Renderer) (or : Oracles)
    (wfs : List Workflow) (hrd : rendererOk rd) :
    runStreaming opts rd or wfs = runBatch opts or wfs := by
  obtain ⟨ev, hev⟩ := sWfLoop_ok opts rd or wfs
    { st := initState wfs, events := [REvent.initAllJobs wfs] } hrd
  simp only [runStreaming, runStreamingFull, runBatch, runBatchState, hev, hrd.2.2.2]

/-! ### Command-resolution lemmas -/

theorem commandArgs_default (sys : Sys) (env : List String) (script : String)
    (h : sys.goos ≠ "windows") :
    commandArgs sys env "" script =
      ["bash", "-l", "-c", getAsdfInit sys env "bash" ++ " " ++ script] := by
  simp [commandArgs, h]

theorem commandArgs_default_windows (sys : Sys) (env : List String) (script : String)
    (h : sys.goos = "windows") :
    commandArgs sys env "" script = ["cmd", "/C", script] := by
  simp [commandArgs, h]

theorem commandArgs_sh (sys : Sys) (env : List String) (script : String) :
    commandArgs sys env "sh" script =
      ["sh", "-c", getAsdfInit sys env "sh" ++ " " ++ script] := by
  have hf : fieldsOf "sh" = ["sh"] := by decide
  have hb : lowerStr (baseName "sh") = "sh" := by decide
  simp [commandArgs, hf, hb]

theorem commandArgs_cmd (sys : Sys) (env : List String) (script : String) :
    commandArgs sys env "cmd" script = ["cmd", "/C", script] := by
  have hf : fieldsOf "cmd" = ["cmd"] := by decide
  have hb : lowerStr (baseName "cmd") = "cmd" := by decide
  simp [commandArgs, hf, hb]

theorem commandArgs_powershell (sys : Sys) (env : List String) (script : String) :
    commandArgs sys env "powershell" script = ["powershell", "-Command", script] := by
  have hf : fieldsOf "powershell" = ["powershell"] := by decide
  have hb : lowerStr (baseName "powershell") = "powershell" := by decide
  simp [commandArgs, hf, hb]

theorem commandArgs_python (sys : Sys) (env : List String) (script : String) :
    commandArgs sys env "python" script = ["python", "-c", script] := by
  have hf : fieldsOf "python" = ["python"] := by decide
  have hb : lowerStr (baseName "python") = "python" := by decide
  simp [commandArgs, hf, hb]

theorem commandArgs_unrecognized (sys : Sys) (env : List String)
    (spec script shell : String) (args : List String)
    (hf : fieldsOf spec = shell :: args)
    (hb : recognizedBase (lowerStr (baseName shell)) = false) :
    commandArgs sys env spec script = shell :: (args ++ [script]) := by
  have hspec : spec ≠ "" := by
    intro hh
    rw [hh] at hf
    cases hf
  simp only [recognizedBase, decide_eq_false_iff_not, not_or] at hb
  obtain ⟨b1, b2, b3, b4, b5, b6, b7, b8, b9, b10, b11, b12, b13⟩ := hb
  simp [commandArgs, hspec, hf, b1, b2, b3, b4, b5, b6, b7, b8, b9, b10, b11, b12, b13]

theorem shellSpecOf_step (step : Step) (job : Job) (wf : Workflow)
    (h : goTrimSpace step.shell ≠ "") :
    shellSpecOf step job wf = goTrimSpace step.shell := by
  simp [shellSpecOf, h]

theorem shellSpecOf_job (step : Step) (job : Job) (wf : Workflow)
    (h1 : goTrimSpace step.shell = "") (h2 : goTrimSpace job.defaults.runShell ≠ "") :
    shellSpecOf step job wf = goTrimSpace job.defaults.runShell := by
  simp [shellSpecOf, h1, h2]

theorem shellSpecOf_wf (step : Step) (job : Job) (wf : Workflow)
    (h1 : goTrimSpace step.shell = "") (h2 : goTrimSpace job.defaults.runShell = "") :
    shellSpecOf step job wf = goTrimSpace wf.defaults.runShell := by
  simp [shellSpecOf, h1, h2]

/-! ### `simplifyError` lemmas -/

theorem isPrefixOf_append_right {a b : List Char} (t : List Char)
    (h : a.isPrefixOf b = true) : a.isPrefixOf (b ++ t) = true := by
  induction a generalizing b with
  | nil => simp [List.isPrefixOf]
  | cons x xs ih =>
    cases b with
    | nil => simp [List.isPrefixOf] at h
    | cons y ys =>
      simp only [List.isPrefixOf, Bool.and_eq_true, beq_iff_eq] at h
      simp only [List.cons_append, List.isPrefixOf, Bool.and_eq_true, beq_iff_eq]
      exact ⟨h.1, ih h.2⟩

theorem containsSub_of_isPrefixOf {needle hay : List Char}
    (h : needle.isPrefixOf hay = true) : containsSub needle hay = true := by
  cases hay with
  | nil => simpa [containsSub] using h
  | cons c rest => simp [containsSub, h]

theorem findBundlerVersion_skip {c : Char} (t : List Char) (h : ¬ c = 'b') :
    findBundlerVersion (c :: t) = findBundlerVersion t := by
  have hb : bundlerLit = ['b', 'u', 'n', 'd', 'l', 'e', 'r', Char.ofNat 39, ' ', '('] := by
    decide
  have : bundlerLit.isPrefixOf (c :: t) = false := by
    rw [hb]
    simp only [List.isPrefixOf, Bool.and_eq_false_iff, beq_eq_false_iff_ne, ne_eq]
    exact Or.inl fun hh => h hh.symm
  simp [findBundlerVersion, this]

theorem findBundlerVersion_of_match {v : List Char} (c : Char) (rest : List Char)
    (hpf : bundlerLit.isPrefixOf (c :: rest) = true)
    (hpv : parseVersionAt ((c :: rest).drop bundlerLit.length) = some v) :
    findBundlerVersion (c :: rest) = some v := by
  simp [findBundlerVersion, hpf, hpv]

theorem simplifyError_id (s : String)
    (h : containsStr (lowerStr s) bundlerNeedle = false) : simplifyError s = s := by
  simp [simplifyError, h]

theorem simplifyError_suffix (rest : List Char) :
    simplifyError (String.mk (bundlerErrPre.toList ++ rest)) = bundlerMsg "2.6.9" := by
  have hlist : bundlerErrPre.toList =
      ['C', 'o', 'u', 'l', 'd', ' ', 'n', 'o', 't', ' ', 'f', 'i', 'n', 'd', ' ',
       Char.ofNat 39, 'b', 'u', 'n', 'd', 'l', 'e', 'r', Char.ofNat 39, ' ', '(',
       '2', '.', '6', '.', '9', ')'] := by decide
  have hlow : (lowerStr (String.mk (bundlerErrPre.toList ++ rest))).toList =
      bundlerErrPre.toList.map Char.toLower ++ rest.map Char.toLower := by
    show (bundlerErrPre.toList ++ rest).map Char.toLower = _
    exact List.map_append Char.toLower _ _
  have hpre : bundlerNeedle.toList.isPrefixOf
      (bundlerErrPre.toList.map Char.toLower) = true := by decide
  have hcontains : containsStr (lowerStr (String.mk (bundlerErrPre.toList ++ rest)))
      bundlerNeedle = true := by
    show containsSub bundlerNeedle.toList
      (lowerStr (String.mk (bundlerErrPre.toList ++ rest))).toList = true
    rw [hlow]
    exact containsSub_of_isPrefixOf (isPrefixOf_append_right _ hpre)
  have hfind : findBundlerVersion (bundlerErrPre.toList ++ rest) =
      some ['2', '.', '6', '.', '9'] := by
    rw [hlist]
    simp only [List.cons_append, List.nil_append]
    iterate 16 rw [findBundlerVersion_skip _ (by decide)]
    refine findBundlerVersion_of_match _ _ ?_ ?_
    · rw [show bundlerLit = ['b', 'u', 'n', 'd', 'l', 'e', 'r', Char.ofNat 39, ' ', '(']
        from by decide]
      simp [List.isPrefixOf]
    · show parseVersionAt ('2' :: '.' :: '6' :: '.' :: '9' :: ')' :: rest) = _
      simp [parseVersionAt, digitSpan, List.takeWhile, List.dropWhile]
  have hver : parseBundlerVersion (String.mk (bundlerErrPre.toList ++ rest)) =
      some "2.6.9" := by
    show (findBundlerVersion (bundlerErrPre.toList ++ rest)).map String.mk = _
    rw [hfind]
    rfl
  rw [simplifyError, if_pos hcontains, hver]

/-! ## Claims -/

/-- C1: the batch orchestration loop (`Runner.Run` v1 / `runBatch`)
processes every eligible step of every job of every workflow, in source
order, even when steps fail; it always returns a nil error, so a non-zero
exit status is only recorded in the step's result; and the `echo hi` /
`exit 3` scenario yields the ordered results [passed, failed] with
`Summary{passed: 1, failed: 1, skipped: 0, exitCode: 1}`. -/
theorem c1_continue_on_failure :
    (∀ (opts : Options) (or : Oracles) (wfs : List Workflow),
      (runBatch opts or wfs).2.2 = none) ∧
    (∀ (opts : Options) (or : Oracles) (wfs : List Workflow),
      (runBatch opts or wfs).1.map resultKey = (eligibleTriples wfs).map tripleKey) ∧
    ((runBatch opts0 or0 [wf0]).1.map StepResult.status = ["passed", "failed"] ∧
     (runBatch opts0 or0 [wf0]).2.1.passed = 1 ∧
     (runBatch opts0 or0 [wf0]).2.1.failed = 1 ∧
     (runBatch opts0 or0 [wf0]).2.1.skipped = 0 ∧
     (runBatch opts0 or0 [wf0]).2.1.exitCode = 1) := by
  refine ⟨fun opts or wfs => rfl, fun opts or wfs => ?_, by decide⟩
  show (runBatchState opts or wfs).results.map resultKey = _
  rw [runBatchState, wfLoop_results_keys]
  simp [initState]

/-- C2: for every run, `Passed + Failed + Skipped = TotalSteps`,
`TotalSteps` counts exactly the eligible steps of the filtered
workflows, the aggregate exit code is 1 exactly when some step failed,
and once the exit code is 1 the step loop keeps it at 1. -/
theorem c2_summary_invariant (opts : Options) (or : Oracles) (wfs : List Workflow) :
    ((runBatch opts or wfs).2.1.passed + (runBatch opts or wfs).2.1.failed +
        (runBatch opts or wfs).2.1.skipped = (runBatch opts or wfs).2.1.totalSteps) ∧
    ((runBatch opts or wfs).2.1.totalSteps = (eligibleTriples wfs).length) ∧
    ((runBatch opts or wfs).2.1.exitCode =
      if 0 < (runBatch opts or wfs).2.1.failed then 1 else 0) ∧
    (∀ (wf : Workflow) (job : Job) (steps : List Step) (st : RunState),
      st.summary.exitCode = 1 →
      (stepLoop opts or wf job steps st).summary.exitCode = 1) := by
  have hinv : sumInv (runBatchState opts or wfs) :=
    wfLoop_sumInv wfs (by constructor <;> simp [initState, Summary.zero])
  refine ⟨hinv.1, ?_, hinv.2, fun wf job steps st h => stepLoop_exit_mono steps h⟩
  show (runBatchState opts or wfs).summary.totalSteps = _
  rw [runBatchState, wfLoop_totalSteps, eligibleTriples_length]
  simp [initState, Summary.zero]

/-- C2 witness: the invariant theorem applied at the concrete scenario,
with the stays-at-1 component discharged at a state whose exit code is
already 1. -/
theorem c2_summary_invariant_witness :
    stExit.summary.exitCode = 1 ∧
    (stepLoop opts0 or0 wf0 job0 [] stExit).summary.exitCode = 1 :=
  ⟨by decide, (c2_summary_invariant opts0 or0 [wf0]).2.2.2 wf0 job0 [] stExit (by decide)⟩

/-- C3: `mergeEnv` resolves each key by step-over-job-over-workflow-over-
base precedence, base keys no overlay touches pass through unchanged,
each resolved pair appears as a `KEY=VALUE` entry, the emitted key list
is sorted, and the output is determined by the resolved key→value map
alone (hence deterministic however the Go maps are iterated). -/
theorem c3_mergeEnv_precedence (base : List String)
    (wfE jobE stepE : List (String × String))
    (h1 : (wfE.map Prod.fst).Nodup) (h2 : (jobE.map Prod.fst).Nodup)
    (h3 : (stepE.map Prod.fst).Nodup) :
    (∀ k, envLookup (mergeMap base [wfE, jobE, stepE]) k =
      specPrecedence base wfE jobE stepE k) ∧
    (∀ k, envLookup stepE k = none → envLookup jobE k = none →
      envLookup wfE k = none →
      envLookup (mergeMap base [wfE, jobE, stepE]) k = baseValue base k) ∧
    (∀ k v, envLookup (mergeMap base [wfE, jobE, stepE]) k = some v →
      (k ++ "=" ++ v) ∈ mergeEnv base [wfE, jobE, stepE]) ∧
    List.Sorted strLe
      (List.insertionSort strLe ((mergeMap base [wfE, jobE, stepE]).map Prod.fst)) ∧
    (∀ (base' : List String) (wfE' jobE' stepE' : List (String × String)),
      (wfE'.map Prod.fst).Nodup → (jobE'.map Prod.fst).Nodup →
      (stepE'.map Prod.fst).Nodup →
      (∀ k, specPrecedence base wfE jobE stepE k =
        specPrecedence base' wfE' jobE' stepE' k) →
      mergeEnv base [wfE, jobE, stepE] = mergeEnv base' [wfE', jobE', stepE']) := by
  refine ⟨fun k => mergeMap_three base wfE jobE stepE k h1 h2 h3,
    fun k hs hj hw => ?_, fun k v h => mem_mergeEnv_of_lookup base _ k v h,
    List.sorted_insertionSort strLe _, fun base' wfE' jobE' stepE' h1' h2' h3' hk => ?_⟩
  · refine mergeMap_lookup_of_overlays_none base _ k ?_
    intro ov hov
    rcases List.mem_cons.mp hov with hh | hov2
    · exact hh ▸ hw
    rcases List.mem_cons.mp hov2 with hh | hov3
    · exact hh ▸ hj
    rcases List.mem_cons.mp hov3 with hh | hov4
    · exact hh ▸ hs
    · cases hov4
  · refine mergeEnv_det base base' _ _ fun k => ?_
    rw [mergeMap_three base wfE jobE stepE k h1 h2 h3,
      mergeMap_three base' wfE' jobE' stepE' k h1' h2' h3', hk k]

/-- C3 witness: the precedence theorem at the spec's example, whose
resolved environment is `A=2, B=2`. -/
theorem c3_mergeEnv_precedence_witness :
    mergeEnv [] [[("A", "1")], [("A", "2"), ("B", "1")], [("B", "2")]] =
      ["A=2", "B=2"] ∧
    envLookup (mergeMap [] [[("A", "1")], [("A", "2"), ("B", "1")], [("B", "2")]]) "A" =
      specPrecedence [] [("A", "1")] [("A", "2"), ("B", "1")] [("B", "2")] "A" :=
  ⟨by decide,
   (c3_mergeEnv_precedence [] [("A", "1")] [("A", "2"), ("B", "1")] [("B", "2")]
     (by decide) (by decide) (by decide)).1 "A"⟩

/-- C10: `mergeEnv` ignores base entries without `'='` (the merged output
is a function of the well-formed base entries and the overlays only), and
every well-formed base entry whose key no overlay overrides passes
through as its own `KEY=VALUE` entry. -/
theorem c10_malformed_base_entries (base : List String)
    (ovs : List (List (String × String))) :
    (mergeEnv (base.filter wellFormedEntry) ovs = mergeEnv base ovs) ∧
    (∀ kv, wellFormedEntry kv = false → mergeEnv (kv :: base) ovs = mergeEnv base ovs) ∧
    (∀ kv k v, kv ∈ base → splitEq kv = some (k, v) → (wfKeys base).Nodup →
      (∀ ov ∈ ovs, envLookup ov k = none) →
      (k ++ "=" ++ v) ∈ mergeEnv base ovs) := by
  refine ⟨mergeEnv_filter_base base ovs, fun kv hkv => ?_, fun kv k v hmem hsp hnd hov => ?_⟩
  · have hsp : splitEq kv = none := by
      cases h : splitEq kv with
      | none => rfl
      | some p => simp [wellFormedEntry, h] at hkv
    unfold mergeEnv mergeMap
    rw [show baseInto ([] : List (String × String)) (kv :: base) = baseInto [] base by
      simp only [baseInto, hsp]]
  · refine mem_mergeEnv_of_lookup base ovs k v ?_
    rw [mergeMap_lookup_of_overlays_none base ovs k hov]
    exact baseValue_of_mem hmem hsp hnd

/-- C10 witness: a malformed base entry contributes nothing, and the
untouched well-formed entry `PATH=/bin` passes through. -/
theorem c10_malformed_base_entries_witness :
    mergeEnv ["MALFORMED", "PATH=/bin"] [[("A", "1")]] =
      mergeEnv ["PATH=/bin"] [[("A", "1")]] ∧
    ("PATH" ++ "=" ++ "/bin") ∈ mergeEnv ["MALFORMED", "PATH=/bin"] [[("A", "1")]] :=
  ⟨by decide,
   (c10_malformed_base_entries ["MALFORMED", "PATH=/bin"] [[("A", "1")]]).2.2
     "PATH=/bin" "PATH" "/bin" (by decide) (by decide) (by decide)
     (by intro ov hov; simp at hov; rw [hov]; decide)⟩

/-- C4 counterexample: `echo hi && sudo reboot` contains `sudo ` but
matches none of the default patterns (the sudo pattern is anchored at the
start of the text), so with the override inactive the step is executed
(recorded passed), not skipped. -/
theorem c4_counterexample :
    containsStr "echo hi && sudo reboot" "sudo " = true ∧
    opts0.allowPrivileged = false ∧
    opts0.privilegedPatterns = DefaultPrivilegedPatterns ∧
    shouldSkipStep goMatch "echo hi && sudo reboot" opts0 = none ∧
    (runBatch opts0 orSudo [wfSudo]).1.map StepResult.status = ["passed"] ∧
    (runBatch opts0 orSudo [wfSudo]).2.1.skipped = 0 := by
  decide

/-- C4 (amended): with the override inactive and the default patterns, a
script that *starts with* `sudo ` is skipped with a message naming the
matched pattern `(?i)^sudo\b` (the first matching pattern decides); a
pattern whose compilation fails is silently ignored; and with the
override active the gate never skips and the step executes. -/
theorem c4_privileged_gate_amended :
    (∀ (m : String → String → Option Bool) (script : String) (opts : Options),
      opts.allowPrivileged = true → shouldSkipStep m script opts = none) ∧
    (∀ (script : String) (opts : Options) (t : List Char),
      opts.allowPrivileged = false →
      opts.privilegedPatterns = DefaultPrivilegedPatterns →
      (lowerStr script).toList = "sudo ".toList ++ t →
      shouldSkipStep goMatch script opts = some (skipMessage "(?i)^sudo\\b")) ∧
    (∀ (m : String → String → Option Bool) (script p : String) (rest : List String),
      m p script = none →
      firstSkip m script (p :: rest) = firstSkip m script rest) ∧
    (∀ (m : String → String → Option Bool) (script p : String) (rest : List String),
      p ≠ "" → m p script = some true →
      firstSkip m script (p :: rest) = some (skipMessage p)) ∧
    (∀ (opts : Options) (or : Oracles) (wf : Workflow) (job : Job) (step : Step)
      (st : RunState),
      eligible step = true → opts.allowPrivileged = true → opts.dryRun = false →
      (processStep opts or wf job step st).attempts = st.attempts + 1 ∧
      ∃ r, (processStep opts or wf job step st).results = st.results ++ [r] ∧
        (r.status = "passed" ∨ r.status = "failed")) :=
  ⟨shouldSkipStep_allow,
   fun script opts t ha hp h => shouldSkip_sudo_head script opts t ha hp h,
   firstSkip_compile_err, firstSkip_first_match, processStep_executes⟩

/-- C4 witness: the amended gate theorem at concrete scripts — the
override lets `sudo rm` run, and `sudo apt-get update` is skipped under
the anchored pattern. -/
theorem c4_privileged_gate_amended_witness :
    optsAllow.allowPrivileged = true ∧
    shouldSkipStep goMatch "sudo rm -rf /tmp/x" optsAllow = none ∧
    shouldSkipStep goMatch "sudo apt-get update" opts0 =
      some (skipMessage "(?i)^sudo\\b") :=
  ⟨by decide,
   c4_privileged_gate_amended.1 goMatch "sudo rm -rf /tmp/x" optsAllow (by decide),
   c4_privileged_gate_amended.2.1 "sudo apt-get update" opts0
     "apt-get update".toList (by decide) (by decide) (by decide)⟩

/-- C5: with step, job-default and workflow-default working directories
all unset, resolution yields the project root (or `Getwd` when the root
is unknown); a resolution failure marks only that step Failed with exit
code 127 and the resolver's message as the captured stderr; and in the
concrete two-step scenario the run continues past the failing step. -/
theorem c5_working_directory :
    (∀ (sys : Sys) (root : String) (wf : Workflow) (job : Job) (step : Step),
      goTrimSpace step.workingDirectory = "" →
      goTrimSpace job.defaults.workingDirectory = "" →
      goTrimSpace wf.defaults.workingDirectory = "" →
      (root ≠ "" → resolveWorkingDirectory sys root wf job step = .ok root) ∧
      (∀ d, root = "" → sys.getwd = some d →
        resolveWorkingDirectory sys root wf job step = .ok d)) ∧
    (∀ (opts : Options) (or : Oracles) (wf : Workflow) (job : Job) (step : Step)
      (st : RunState) (msg : String),
      eligible step = true →
      shouldSkipStep or.matcher step.run opts = none →
      opts.dryRun = false →
      resolveWorkingDirectory or.sys opts.root wf job step = .error msg →
      0 < opts.tailLines →
      ∃ r, (processStep opts or wf job step st).results = st.results ++ [r] ∧
        r.status = "failed" ∧ r.exitCode = 127 ∧ r.stderr = msg) ∧
    ((runBatch opts0 orWd [wfWd]).1.map StepResult.status = ["failed", "passed"] ∧
     (runBatch opts0 orWd [wfWd]).1.map StepResult.exitCode = [127, 0] ∧
     (runBatch opts0 orWd [wfWd]).1.map StepResult.stderr =
       ["working directory \"/proj/missing\" not found", ""]) := by
  refine ⟨fun sys root wf job step h1 h2 h3 => ?_,
    fun opts or wf job step st msg he hs hd hres hT => ?_, by decide⟩
  · rw [resolveWD_all_empty sys root wf job step h1 h2 h3]
    constructor
    · intro hr
      rw [if_neg hr]
    · intro d hr hg
      rw [if_pos hr, hg]
  · have hso := runStep_resolveErr opts or.sys (or.procs st.spawned) wf job step msg hres
    have hmsg := resolveWD_error_msg or.sys opts.root wf job step msg hres
    rw [processStep_exec_fail opts or wf job step st he hs hd (by rw [hso]), hso]
    exact ⟨_, rfl, rfl, rfl,
      tailLines_single_line msg opts.tailLines hmsg.1 hmsg.2 hT⟩

/-- C5 witness: the resolver falls back to the root for the scenario's
plain steps, and the failure branch fires at the missing-directory
step. -/
theorem c5_working_directory_witness :
    resolveWorkingDirectory sys0 "/proj" wf0 job0 step01 = .ok "/proj" ∧
    (∃ r, (processStep opts0 orWd wfWd jobWd stepWd1 (initState [wfWd])).results =
        (initState [wfWd]).results ++ [r] ∧
      r.status = "failed" ∧ r.exitCode = 127 ∧
      r.stderr = "working directory \"/proj/missing\" not found") :=
  ⟨((c5_working_directory.1 sys0 "/proj" wf0 job0 step01 (by decide) (by decide)
      (by decide)).1 (by decide)),
   c5_working_directory.2.1 opts0 orWd wfWd jobWd stepWd1 (initState [wfWd])
     "working directory \"/proj/missing\" not found" (by decide) (by decide)
     (by decide) (by rfl) (by decide)⟩

/-- C7: with dry-run active, every produced result is Skipped with
`DryRun = true`, zero duration, carries the step's literal command text
(via the key fields), covers exactly the eligible steps, and no
subprocess is spawned (and no timing pair is consumed). -/
theorem c7_dry_run (opts : Options) (or : Oracles) (wfs : List Workflow)
    (hd : opts.dryRun = true) :
    (∀ r ∈ (runBatch opts or wfs).1,
      r.status = "skipped" ∧ r.dryRun = true ∧ r.duration = 0 ∧ r.durationMS = 0) ∧
    ((runBatch opts or wfs).1.map resultKey = (eligibleTriples wfs).map tripleKey) ∧
    (runBatchState opts or wfs).spawned = 0 ∧
    (runBatchState opts or wfs).attempts = 0 := by
  refine ⟨fun r hr => ?_, ?_, ?_, ?_⟩
  · rcases wfLoop_dry_results opts or wfs (initState wfs) hd r hr with h | h
    · simp [initState] at h
    · exact h
  · show (runBatchState opts or wfs).results.map resultKey = _
    rw [runBatchState, wfLoop_results_keys]
    simp [initState]
  · exact (wfLoop_dry_state opts or wfs (initState wfs) hd).2
  · exact (wfLoop_dry_state opts or wfs (initState wfs) hd).1

/-- C7 witness: the dry-run theorem at the two-step scenario. -/
theorem c7_dry_run_witness :
    optsDry.dryRun = true ∧
    (runBatch optsDry or0 [wf0]).1.map StepResult.status = ["skipped", "skipped"] ∧
    (runBatch optsDry or0 [wf0]).1.map StepResult.stepRun = ["echo hi", "exit 3"] ∧
    ∀ r ∈ (runBatch optsDry or0 [wf0]).1,
      r.status = "skipped" ∧ r.dryRun = true ∧ r.duration = 0 ∧ r.durationMS = 0 :=
  ⟨by decide, by decide, by decide, (c7_dry_run optsDry or0 [wf0] (by decide)).1⟩

/-- C8: the command resolver uses the first non-empty trimmed shell
specification (step, then job default, then workflow default); with no
shell set it builds a POSIX login-shell invocation (`-l -c`) or `cmd /C`
on Windows; `sh` omits the login flag (only `-c`); `cmd`, `powershell`
and `python` use their own invocation flags; and an unrecognized
executable receives the script as a trailing bare argument. -/
theorem c8_command_resolution :
    (∀ (sys : Sys) (env : List String) (script : String), sys.goos ≠ "windows" →
      commandArgs sys env "" script =
        ["bash", "-l", "-c", getAsdfInit sys env "bash" ++ " " ++ script]) ∧
    (∀ (sys : Sys) (env : List String) (script : String), sys.goos = "windows" →
      commandArgs sys env "" script = ["cmd", "/C", script]) ∧
    (∀ (sys : Sys) (env : List String) (script : String),
      commandArgs sys env "sh" script =
        ["sh", "-c", getAsdfInit sys env "sh" ++ " " ++ script]) ∧
    (∀ (sys : Sys) (env : List String) (script : String),
      commandArgs sys env "cmd" script = ["cmd", "/C", script]) ∧
    (∀ (sys : Sys) (env : List String) (script : String),
      commandArgs sys env "powershell" script = ["powershell", "-Command", script]) ∧
    (∀ (sys : Sys) (env : List String) (script : String),
      commandArgs sys env "python" script = ["python", "-c", script]) ∧
    (∀ (sys : Sys) (env : List String) (spec script shell : String)
      (args : List String), fieldsOf spec = shell :: args →
      recognizedBase (lowerStr (baseName shell)) = false →
      commandArgs sys env spec script = shell :: (args ++ [script])) ∧
    (∀ (sys : Sys) (env : List String) (step : Step) (job : Job) (wf : Workflow),
      buildCommand sys env step job wf =
        .ok (commandArgs sys env (shellSpecOf step job wf) step.run) ∧
      (goTrimSpace step.shell ≠ "" →
        shellSpecOf step job wf = goTrimSpace step.shell) ∧
      (goTrimSpace step.shell = "" → goTrimSpace job.defaults.runShell ≠ "" →
        shellSpecOf step job wf = goTrimSpace job.defaults.runShell) ∧
      (goTrimSpace step.shell = "" → goTrimSpace job.defaults.runShell = "" →
        shellSpecOf step job wf = goTrimSpace wf.defaults.runShell)) :=
  ⟨commandArgs_default, commandArgs_default_windows, commandArgs_sh, commandArgs_cmd,
   commandArgs_powershell, commandArgs_python, commandArgs_unrecognized,
   fun sys env step job wf =>
     ⟨buildCommand_eq sys env step job wf, shellSpecOf_step step job wf,
      shellSpecOf_job step job wf, shellSpecOf_wf step job wf⟩⟩

/-- C8 witness: the resolver theorem at concrete shell specifications on
a POSIX host. -/
theorem c8_command_resolution_witness :
    sys0.goos ≠ "windows" ∧
    commandArgs sys0 [] "" "echo hi" =
      ["bash", "-l", "-c", getAsdfInit sys0 [] "bash" ++ " " ++ "echo hi"] ∧
    commandArgs sys0 [] "sh" "echo hi" =
      ["sh", "-c", getAsdfInit sys0 [] "sh" ++ " " ++ "echo hi"] ∧
    commandArgs sys0 [] "ruby" "puts 1" = ["ruby", "puts 1"] :=
  ⟨by decide, c8_command_resolution.1 sys0 [] "echo hi" (by decide),
   c8_command_resolution.2.2.1 sys0 [] "echo hi",
   c8_command_resolution.2.2.2.2.2.2.1 sys0 [] "ruby" "puts 1" "ruby" []
     (by decide) (by decide)⟩

/-- C9: with a renderer that never returns an error, `Runner.Run` in
streaming mode returns exactly the same step-result list, summary and
nil error as in batch mode. -/
theorem c9_rendering_parity (opts : Options) (rd : Renderer) (or : Oracles)
    (wfs : List Workflow) (h : rendererOk rd) :
    runnerRun true opts rd or wfs = runnerRun false opts rd or wfs := by
  show runStreaming opts rd or wfs = runBatch opts or wfs
  exact runStreaming_eq_runBatch opts rd or wfs h

/-- C9 witness: parity at the concrete two-step scenario under the
always-succeeding renderer. -/
theorem c9_rendering_parity_witness :
    runnerRun true opts0 rd0 or0 [wf0] = runnerRun false opts0 rd0 or0 [wf0] :=
  c9_rendering_parity opts0 rd0 or0 [wf0]
    ⟨fun _ => rfl, fun _ _ _ _ _ _ => rfl, rfl, fun _ => rfl⟩

set_option maxHeartbeats 2000000 in
/-- C6 counterexample: in streaming mode the renderer's `CompleteStep`
call for a failing step carries the tail-truncated stdout (`2\n3`), not
the full captured text (`1\n2\n3\n`), contradicting "streaming paths
retain full text". -/
theorem c6_counterexample :
    runStreamingEvents opts2 rd0 orTail [wfTail] =
      [REvent.initAllJobs [wfTail], REvent.startJob "job", REvent.startStep "step",
       REvent.completeStep "step" "failed" 0 "2\n3" "" "seq 3", REvent.completeJob,
       REvent.renderSummary
         { totalWorkflows := 1, totalJobs := 1, totalSteps := 1, passed := 0,
           failed := 1, skipped := 0, duration := 0, durationMS := 0,
           exitCode := 1 }] ∧
    ("2\n3" : String) ≠ "1\n2\n3\n" := by
  constructor
  · decide
  · decide

set_option maxHeartbeats 2000000 in
/-- C6 (amended): on a failing step the captured stdout/stderr are
tail-truncated to the last `TailLines` lines in order (an output of K
lines with T < K yields exactly the last T lines); a passing step's
output is not truncated; the verbose path mirrors the full raw bytes to
the console even though the stored result is truncated; a stderr bearing
the missing-bundler signature is rewritten to a remediation message with
the version extracted by pattern match; and the streaming renderer
receives the same truncated text as the batch result. -/
theorem c6_output_transforms_amended :
    (∀ (ls : List (List Char)) (m T : Nat), ls ≠ [] → (∀ l ∈ ls, '\n' ∉ l) →
      ls.getLast? ≠ some [] → T < ls.length →
      tailLines (String.mk (joinNL ls ++ List.replicate m '\n')) T =
        String.mk (joinNL (ls.drop (ls.length - T))) ∧
      (ls.drop (ls.length - T)).length = T) ∧
    (∀ (opts : Options) (or : Oracles) (wf : Workflow) (job : Job) (step : Step)
      (st : RunState),
      eligible step = true → shouldSkipStep or.matcher step.run opts = none →
      opts.dryRun = false →
      ((runStep opts or.sys (or.procs st.spawned) wf job step).isErr = true →
        ∃ r, (processStep opts or wf job step st).results = st.results ++ [r] ∧
          r.status = "failed" ∧
          r.stdout = tailLines
            (runStep opts or.sys (or.procs st.spawned) wf job step).stdout
            opts.tailLines ∧
          r.stderr = tailLines
            (runStep opts or.sys (or.procs st.spawned) wf job step).stderr
            opts.tailLines) ∧
      ((runStep opts or.sys (or.procs st.spawned) wf job step).isErr = false →
        ∃ r, (processStep opts or wf job step st).results = st.results ++ [r] ∧
          r.status = "passed" ∧
          r.stdout = (runStep opts or.sys (or.procs st.spawned) wf job step).stdout ∧
          r.stderr = (runStep opts or.sys (or.procs st.spawned) wf job step).stderr)) ∧
    (∀ (opts : Options) (sys : Sys)
      (proc : List String → String → List String → ProcOutcome)
      (wf : Workflow) (job : Job) (step : Step) (dir : String) (c : Int)
      (o e : String),
      opts.verbose = true →
      resolveWorkingDirectory sys opts.root wf job step = .ok dir →
      proc (commandArgs sys (mergeEnv opts.env [wf.env, job.env, step.env])
          (shellSpecOf step job wf) step.run) dir
          (mergeEnv opts.env [wf.env, job.env, step.env]) = ProcOutcome.fail c o e →
      (runStep opts sys proc wf job step).echoOut = o ∧
      (runStep opts sys proc wf job step).echoErr = e ∧
      (runStep opts sys proc wf job step).stdout = o ∧
      (runStep opts sys proc wf job step).stderr = simplifyError e) ∧
    (∀ s, containsStr (lowerStr s) bundlerNeedle = false → simplifyError s = s) ∧
    (∀ rest : List Char,
      simplifyError (String.mk (bundlerErrPre.toList ++ rest)) = bundlerMsg "2.6.9") ∧
    (REvent.completeStep "step" "failed" 0 "2\n3" "" "seq 3" ∈
      runStreamingEvents opts2 rd0 orTail [wfTail]) := by
  refine ⟨fun ls m T hne hnl hlast hT =>
      ⟨tailLines_lastT ls m T hne hnl hlast hT, by rw [List.length_drop]; omega⟩,
    fun opts or wf job step st he hs hd => ⟨fun hx => ?_, fun hx => ?_⟩,
    fun opts sys proc wf job step dir c o e hv hres hp => ?_,
    simplifyError_id, simplifyError_suffix, by decide⟩
  · rw [processStep_exec_fail opts or wf job step st he hs hd hx]
    exact ⟨_, rfl, rfl, rfl, rfl⟩
  · rw [processStep_exec_pass opts or wf job step st he hs hd hx]
    exact ⟨_, rfl, rfl, rfl, rfl⟩
  · rw [runStep_spawn opts sys proc wf job step dir hres, hp, hv]
    exact ⟨rfl, rfl, rfl, rfl⟩

/-- C6 witness: the amended theorem at the concrete three-line output,
the failing scenario step, the verbose echo, and a bundler stderr. -/
theorem c6_output_transforms_amended_witness :
    tailLines (String.mk (joinNL [['1'], ['2'], ['3']] ++ List.replicate 1 '\n')) 2 =
      String.mk (joinNL ([['1'], ['2'], ['3']].drop 1)) ∧
    (∃ r, (processStep opts2 orTail wfTail jobTail stepTail
        (initState [wfTail])).results = (initState [wfTail]).results ++ [r] ∧
      r.status = "failed" ∧
      r.stdout = tailLines
        (runStep opts2 orTail.sys (orTail.procs (initState [wfTail]).spawned)
          wfTail jobTail stepTail).stdout opts2.tailLines ∧
      r.stderr = tailLines
        (runStep opts2 orTail.sys (orTail.procs (initState [wfTail]).spawned)
          wfTail jobTail stepTail).stderr opts2.tailLines) ∧
    (runStep optsVerb orTail.sys (orTail.procs 0) wfTail jobTail stepTail).echoOut =
      "1\n2\n3\n" ∧
    simplifyError "no bundler here" = "no bundler here" ∧
    simplifyError (String.mk (bundlerErrPre.toList ++
      " required by your Gemfile.lock".toList)) = bundlerMsg "2.6.9" :=
  ⟨(c6_output_transforms_amended.1 [['1'], ['2'], ['3']] 1 2 (by decide) (by decide)
      (by decide) (by decide)).1,
   (c6_output_transforms_amended.2.1 opts2 orTail wfTail jobTail stepTail
      (initState [wfTail]) (by decide) (by decide) (by decide)).1 (by rfl),
   ((c6_output_transforms_amended.2.2.1 optsVerb orTail.sys (orTail.procs 0) wfTail
      jobTail stepTail "/proj" 1 "1\n2\n3\n" "" (by decide) (by rfl) (by rfl))).1,
   c6_output_transforms_amended.2.2.2.1 "no bundler here" (by decide),
   c6_output_transforms_amended.2.2.2.2.1 " required by your Gemfile.lock".toList⟩

end Detest
